import Mathlib

/-!
Verification development for `export_clean_group.py` (Kubernetes resource
grouper).  The Python program is shallowly embedded: YAML documents become the
inductive type `Val` below, Python dict/list operations become functions over
`Val`, and a Python expression that can raise an exception is modelled as an
`Option`-valued function returning `none` on the raising branch.

Modelling conventions, fixed once here:
* Python dicts are association lists `List (String × Val)`; the programs under
  study only ever build dicts with pairwise distinct keys (Python dicts cannot
  hold duplicate keys), so `d.pop(k)` is modelled by filtering the key out and
  `k in d` / `d.get k` by a first-match lookup.
* Documents are trees: the YAML loaded by the tool (kubectl output, no
  anchors) has no internal sharing, so in-place mutation of a sub-dict is
  modelled by functionally replacing the value stored at its key.
* Iteration `for x in v` is modelled for sequence values; the collections the
  script iterates (`volumes`, `containers`, `subjects`, `rules`, `paths`,
  `ports`, …) are YAML sequences, and a non-sequence there is modelled as an
  error.
-/

namespace ExportCleanGroup

/-- A YAML/JSON-like value: the shape of every object the script manipulates. -/
inductive Val where
  | null : Val
  | bool : Bool → Val
  | int : Int → Val
  | str : String → Val
  | list : List Val → Val
  | obj : List (String × Val) → Val

abbrev Entries := List (String × Val)

mutual

/-- Structural boolean equality on values (Python `==` on these documents). -/
def Val.beq : Val → Val → Bool
  | Val.null, Val.null => true
  | Val.bool a, Val.bool b => a == b
  | Val.int a, Val.int b => a == b
  | Val.str a, Val.str b => a == b
  | Val.list xs, Val.list ys => beqValList xs ys
  | Val.obj xs, Val.obj ys => beqValEntries xs ys
  | _, _ => false

/-- Equality of sequence contents. -/
def beqValList : List Val → List Val → Bool
  | [], [] => true
  | x :: xs, y :: ys => Val.beq x y && beqValList xs ys
  | _, _ => false

/-- Equality of mapping entries. -/
def beqValEntries : Entries → Entries → Bool
  | [], [] => true
  | (k, x) :: xs, (k2, y) :: ys => (k == k2) && Val.beq x y && beqValEntries xs ys
  | _, _ => false

end

mutual

theorem Val.beq_iff : (a b : Val) → (Val.beq a b = true ↔ a = b)
  | Val.null, b => by cases b <;> simp [Val.beq]
  | Val.bool x, b => by cases b <;> simp [Val.beq]
  | Val.int x, b => by cases b <;> simp [Val.beq]
  | Val.str x, b => by cases b <;> simp [Val.beq]
  | Val.list xs, b => by
      cases b
      case list ys => simpa [Val.beq] using beqValList_iff xs ys
      all_goals simp [Val.beq]
  | Val.obj xs, b => by
      cases b
      case obj ys => simpa [Val.beq] using beqValEntries_iff xs ys
      all_goals simp [Val.beq]

theorem beqValList_iff : (xs ys : List Val) → (beqValList xs ys = true ↔ xs = ys)
  | [], ys => by cases ys <;> simp [beqValList]
  | x :: xs, [] => by simp [beqValList]
  | x :: xs, y :: ys => by
      simp [beqValList, Val.beq_iff x y, beqValList_iff xs ys]

theorem beqValEntries_iff : (xs ys : Entries) → (beqValEntries xs ys = true ↔ xs = ys)
  | [], ys => by cases ys <;> simp [beqValEntries]
  | e :: xs, [] => by simp [beqValEntries]
  | (k, x) :: xs, (k2, y) :: ys => by
      simp [beqValEntries, Val.beq_iff x y, beqValEntries_iff xs ys, Prod.ext_iff]

end

instance : DecidableEq Val := fun a b =>
  decidable_of_iff (Val.beq a b = true) (Val.beq_iff a b)

/-- First binding of key `k` in an association list (Python dict lookup). -/
def lookupKey (es : Entries) (k : String) : Option Val :=
  (es.find? (fun e => e.1 = k)).map (·.2)

/-- Python key-membership test `k in d` for a dict. -/
def hasKey (es : Entries) (k : String) : Bool :=
  (lookupKey es k).isSome

/-- Python truthiness (`if x:`): `None`, `False`, `0`, `""`, `[]`, `{}` are falsy. -/
def truthy : Val → Bool
  | Val.null => false
  | Val.bool b => b
  | Val.int n => n != 0
  | Val.str s => s ≠ ""
  | Val.list xs => ¬ xs.isEmpty
  | Val.obj es => ¬ es.isEmpty

/-- Character-wise prefix test (Python `str.startswith`), written so that it
evaluates inside the kernel. -/
def charsPrefix : List Char → List Char → Bool
  | [], _ => true
  | _ :: _, [] => false
  | c :: cs, d :: ds => c = d && charsPrefix cs ds

/-- Python `s.startswith(p)`. -/
def strStartsWith (s p : String) : Bool :=
  charsPrefix p.data s.data

/-- ASCII lower-casing of one character. -/
def pyLowerChar (c : Char) : Char :=
  if c.isUpper then Char.ofNat (c.toNat + 32) else c

/-- Python `s.lower()` (the strings compared here are ASCII kind names). -/
def pyLower (s : String) : String :=
  String.mk (s.data.map pyLowerChar)

/-- Is the value an empty mapping (`isinstance(x, dict) and not x`)? -/
def isEmptyObj : Val → Bool
  | Val.obj es => es.isEmpty
  | _ => false

/-- `x.get(k, d)`; raises (models as `none`) when `x` is not a mapping. -/
def pyGet (x : Val) (k : String) (d : Val) : Option Val :=
  match x with
  | Val.obj es => some ((lookupKey es k).getD d)
  | _ => none

/-- `x[k]`; raises when `x` is not a mapping or the key is absent. -/
def pyIndex (x : Val) (k : String) : Option Val :=
  match x with
  | Val.obj es => lookupKey es k
  | _ => none

/-- A chain `x.get(k1, {}).get(k2, {})…` with mapping defaults. -/
def chainGet (x : Val) : List String → Option Val
  | [] => some x
  | k :: ks => do
      let y ← pyGet x k (Val.obj [])
      chainGet y ks

/-- `List.mapM` specialised to `Option`, in directly recursive form for proofs. -/
def mapOpt (f : α → Option β) : List α → Option (List β)
  | [] => some []
  | a :: l => do
      let b ← f a
      let bs ← mapOpt f l
      pure (b :: bs)

/-- `List.foldlM` specialised to `Option`, in directly recursive form for proofs. -/
def foldOpt (f : β → α → Option β) : List α → β → Option β
  | [], b => some b
  | a :: l, b => do
      let b2 ← f b a
      foldOpt f l b2

/-- Elements of a sequence value; iterating a non-sequence is modelled as an error. -/
def pyElems : Val → Option (List Val)
  | Val.list xs => some xs
  | _ => none

/-- The entries of a mapping value (`x.items()`). -/
def pyItems : Val → Option Entries
  | Val.obj es => some es
  | _ => none

/- ---------------------------------------------------------------------------
The snapshot cache `self.all_resources`: a dict from resource-kind strings to
dicts from resource names to fetched objects.
--------------------------------------------------------------------------- -/

abbrev Snap := List (String × Entries)

/-- `self.all_resources.get(kind, {})` — `all_resources` itself is always a dict. -/
def snapGet (s : Snap) (kind : String) : Entries :=
  ((s.find? (fun e => e.1 = kind)).map (·.2)).getD []

/-- `name in self.all_resources.get(kind, {})`: dict keys are the strings coming
from `kubectl` name listings, so a non-string value never matches a key. -/
def nameInSnap (v : Val) (es : Entries) : Bool :=
  match v with
  | Val.str s => hasKey es s
  | _ => false

/- ---------------------------------------------------------------------------
Manifest sanitizer: `CLEAN_RULES` and `clean_yaml`.
--------------------------------------------------------------------------- -/

/-- `CLEAN_RULES["metadata"]`. -/
def cleanRulesMetadata : List String :=
  ["creationTimestamp", "deletionGracePeriodSeconds", "deletionTimestamp",
   "generation", "managedFields", "resourceVersion", "selfLink", "uid",
   "finalizers", "ownerReferences"]

/-- `CLEAN_RULES["annotations"]`. -/
def cleanRulesAnnotations : List String :=
  ["kubectl.kubernetes.io/last-applied-configuration",
   "olm.operatorNamespace", "olm.operatorGroup",
   "volume.kubernetes.io/selected-node",
   "pv.kubernetes.io/bind-completed",
   "pv.kubernetes.io/bound-by-controller",
   "volume.beta.kubernetes.io/storage-provisioner",
   "volume.kubernetes.io/storage-provisioner"]

/-- `CLEAN_RULES["spec"]`. -/
def cleanRulesSpec : List String :=
  ["clusterIP", "clusterIPs", "ipFamilies", "ipFamilyPolicy",
   "sessionAffinityConfig", "externalIPs", "externalTrafficPolicy",
   "healthCheckNodePort", "loadBalancerIP", "loadBalancerSourceRanges",
   "publishNotReadyAddresses", "volumeName"]

/-- `for a in CLEAN_RULES["annotations"]: ann.pop(a, None)` on a mapping;
a non-mapping annotations value is left untouched (`isinstance` guard). -/
def cleanAnnotations : Val → Val
  | Val.obj a => Val.obj (a.filter (fun e => ¬ (e.1 ∈ cleanRulesAnnotations)))
  | v => v

/-- The four passes the source applies to the entries of a mapping-shaped
`metadata` section (lines 623–641): strip the `CLEAN_RULES["metadata"]` keys,
clean the annotations mapping, drop the annotations entry if it ended up an
empty mapping, and drop an empty labels mapping. -/
def cleanMetaList (m : Entries) : Entries :=
  ((((m.filter (fun e => ¬ (e.1 ∈ cleanRulesMetadata))).map
      (fun e => if e.1 = "annotations" then (e.1, cleanAnnotations e.2) else e)).filter
      (fun e => ¬ (e.1 = "annotations" ∧ isEmptyObj e.2))).filter
      (fun e => ¬ (e.1 = "labels" ∧ isEmptyObj e.2)))

/-- The metadata-section cleaning of `clean_yaml`: applied to a non-mapping
metadata value it is the identity (`isinstance(meta, dict)` guard). -/
def cleanMeta : Val → Val
  | Val.obj m => Val.obj (cleanMetaList m)
  | v => v

/-- `p.pop("nodePort", None)` on one entry of `spec["ports"]`; a non-mapping
entry raises `AttributeError` in the source (`p.pop` is unguarded). -/
def cleanPortEntry : Val → Option Val
  | Val.obj d => some (Val.obj (d.filter (fun e => e.1 ≠ "nodePort")))
  | _ => none

/-- The spec-section cleaning of `clean_yaml`, lines 647–655: strip the
`CLEAN_RULES["spec"]` keys and pop `nodePort` from every entry of a list-shaped
`ports` value; identity on a non-mapping spec. -/
def cleanSpec : Val → Option Val
  | Val.obj s => do
      let s1 := s.filter (fun e => ¬ (e.1 ∈ cleanRulesSpec))
      let s2 ← mapOpt (fun (e : String × Val) =>
        if e.1 = "ports" then
          match e.2 with
          | Val.list ps => do
              let ps2 ← mapOpt cleanPortEntry ps
              pure (e.1, Val.list ps2)
          | v => pure (e.1, v)
        else pure e) s1
      pure (Val.obj s2)
  | v => pure v

/-- `clean_yaml` (lines 605–657) as a value transformer: the value returned by
the call (the source returns its — mutated — argument).  A non-mapping input is
returned unchanged; on a mapping, `status` is popped at top level and the
`metadata` and `spec` sections are cleaned. -/
def clean_yaml : Val → Option Val
  | Val.obj entries => do
      let e1 := entries.filter (fun e => e.1 ≠ "status")
      let e2 ← mapOpt (fun (e : String × Val) =>
        if e.1 = "metadata" then pure (e.1, cleanMeta e.2)
        else if e.1 = "spec" then do
          let s ← cleanSpec e.2
          pure (e.1, s)
        else pure e) e1
      pure (Val.obj e2)
  | v => pure v

/-- The value of the cached original object after `save_resource` (line 676)
runs `clean_yaml(resource_obj.copy())`.  `dict.copy()` is a *shallow* copy: the
copy's `metadata`, `annotations`, `labels`, `spec` and `ports` values are the
very dict/list objects held by the cached original, so every in-place `pop`
performed inside them by `clean_yaml` is visible through the original, while
the top-level `obj.pop("status", None)` removes the key only from the copy.
Hence the original keeps its `status` entry but has its nested sections
cleaned.  (On the error path the source raises after partially mutating the
original; this model returns `none` there.) -/
def originalAfterSave : Val → Option Val
  | Val.obj entries => do
      let e2 ← mapOpt (fun (e : String × Val) =>
        if e.1 = "metadata" then pure (e.1, cleanMeta e.2)
        else if e.1 = "spec" then do
          let s ← cleanSpec e.2
          pure (e.1, s)
        else pure e) entries
      pure (Val.obj e2)
  | v => pure v

/-- `isinstance(obj, dict)`. -/
def isMapping : Val → Bool
  | Val.obj _ => true
  | _ => false

/- ---------------------------------------------------------------------------
General lemmas about the Option-monad list combinators.
--------------------------------------------------------------------------- -/

theorem mapOpt_nil {f : α → Option β} : mapOpt f [] = some [] := rfl

theorem mapOpt_cons {f : α → Option β} {a : α} {l : List α} :
    mapOpt f (a :: l) =
      (f a).bind (fun b => (mapOpt f l).bind (fun bs => some (b :: bs))) := rfl

theorem mapOpt_mem {f : α → Option β} :
    ∀ {l : List α} {l2 : List β}, mapOpt f l = some l2 →
      ∀ b ∈ l2, ∃ a ∈ l, f a = some b := by
  intro l
  induction l with
  | nil =>
      intro l2 h b hb
      rw [mapOpt_nil] at h
      injection h with h
      subst h
      cases hb
  | cons a t ih =>
      intro l2 h b hb
      rw [mapOpt_cons] at h
      simp only [Option.bind_eq_some, Option.some.injEq] at h
      obtain ⟨b0, hb0, bs, hbs, heq⟩ := h
      subst heq
      cases hb with
      | head => exact ⟨a, by simp, hb0⟩
      | tail _ hb =>
          obtain ⟨a2, ha2, hfa2⟩ := ih hbs b hb
          exact ⟨a2, by simp [ha2], hfa2⟩

theorem mapOpt_stable {f : α → Option α} (hf : ∀ a b, f a = some b → f b = some b) :
    ∀ {l l2 : List α}, mapOpt f l = some l2 → mapOpt f l2 = some l2 := by
  intro l
  induction l with
  | nil =>
      intro l2 h
      rw [mapOpt_nil] at h
      injection h with h
      subst h
      rfl
  | cons a t ih =>
      intro l2 h
      rw [mapOpt_cons] at h
      simp only [Option.bind_eq_some, Option.some.injEq] at h
      obtain ⟨b0, hb0, bs, hbs, heq⟩ := h
      subst heq
      rw [mapOpt_cons]
      simp only [Option.bind_eq_some, Option.some.injEq]
      exact ⟨b0, hf a b0 hb0, bs, ih hbs, rfl⟩

theorem filterMap_stable {f : α → Option α} (hf : ∀ a b, f a = some b → f b = some b) :
    ∀ l : List α, (l.filterMap f).filterMap f = l.filterMap f := by
  intro l
  induction l with
  | nil => simp
  | cons a t ih =>
      cases hfa : f a with
      | none => simp [List.filterMap_cons, hfa, ih]
      | some b => simp [List.filterMap_cons, hfa, hf a b hfa, ih]

/- ---------------------------------------------------------------------------
Idempotence of the sanitizer.
--------------------------------------------------------------------------- -/

theorem cleanAnnotations_idem (v : Val) :
    cleanAnnotations (cleanAnnotations v) = cleanAnnotations v := by
  cases v <;> simp [cleanAnnotations, List.filter_filter]

/-- Per-entry form of the metadata cleaning: what becomes of one `metadata`
entry under the four passes of `cleanMeta`. -/
def cleanMetaEntry (e : String × Val) : Option (String × Val) :=
  if e.1 ∈ cleanRulesMetadata then none
  else if e.1 = "annotations" then
    let a := cleanAnnotations e.2
    if isEmptyObj a then none else some (e.1, a)
  else if e.1 = "labels" then
    if isEmptyObj e.2 then none else some e
  else some e

theorem cleanMetaList_cons (e : String × Val) (t : Entries) :
    cleanMetaList (e :: t) =
      match cleanMetaEntry e with
      | none => cleanMetaList t
      | some e2 => e2 :: cleanMetaList t := by
  by_cases h1 : e.1 ∈ cleanRulesMetadata
  · simp [cleanMetaList, cleanMetaEntry, h1]
  · by_cases h2 : e.1 = "annotations"
    · by_cases h3 : isEmptyObj (cleanAnnotations e.2) = true
      · simp +decide [cleanMetaList, cleanMetaEntry, h1, h2, h3]
      · simp +decide [cleanMetaList, cleanMetaEntry, h1, h2, h3]
    · by_cases h4 : e.1 = "labels"
      · by_cases h5 : isEmptyObj e.2 = true
        · simp +decide [cleanMetaList, cleanMetaEntry, h1, h2, h4, h5]
        · simp +decide [cleanMetaList, cleanMetaEntry, h1, h2, h4, h5]
      · simp [cleanMetaList, cleanMetaEntry, h1, h2, h4]

theorem cleanMetaList_eq (m : Entries) :
    cleanMetaList m = m.filterMap cleanMetaEntry := by
  induction m with
  | nil => rfl
  | cons e t ih =>
      rw [cleanMetaList_cons, List.filterMap_cons]
      cases cleanMetaEntry e with
      | none => simpa using ih
      | some e2 => simp [ih]

theorem cleanMeta_eq_filterMap (m : Entries) :
    cleanMeta (Val.obj m) = Val.obj (m.filterMap cleanMetaEntry) := by
  simp [cleanMeta, cleanMetaList_eq]

theorem cleanMetaEntry_stable (e e2 : String × Val)
    (h : cleanMetaEntry e = some e2) : cleanMetaEntry e2 = some e2 := by
  unfold cleanMetaEntry at h ⊢
  by_cases h1 : e.1 ∈ cleanRulesMetadata
  · simp [h1] at h
  · by_cases h2 : e.1 = "annotations"
    · by_cases h3 : isEmptyObj (cleanAnnotations e.2) = true
      · simp +decide [h1, h2, h3] at h
      · simp +decide [h1, h2, h3] at h
        subst h
        simp +decide [cleanAnnotations_idem, h3]
    · by_cases h4 : e.1 = "labels"
      · by_cases h5 : isEmptyObj e.2 = true
        · simp +decide [h1, h2, h4, h5] at h
        · simp +decide [h1, h2, h4, h5] at h
          subst h
          simp +decide [h1, h2, h4, h5]
      · simp [h1, h2, h4] at h
        subst h
        simp [h1, h2, h4]

theorem cleanMeta_idem (v : Val) : cleanMeta (cleanMeta v) = cleanMeta v := by
  cases v with
  | obj m =>
      rw [cleanMeta_eq_filterMap, cleanMeta_eq_filterMap,
          filterMap_stable cleanMetaEntry_stable]
  | null => rfl
  | bool b => rfl
  | int n => rfl
  | str s => rfl
  | list xs => rfl

theorem cleanPortEntry_stable (v w : Val) (h : cleanPortEntry v = some w) :
    cleanPortEntry w = some w := by
  cases v with
  | obj d =>
      simp only [cleanPortEntry, Option.some.injEq] at h
      subst h
      simp [cleanPortEntry, List.filter_filter]
  | null => simp [cleanPortEntry] at h
  | bool b => simp [cleanPortEntry] at h
  | int n => simp [cleanPortEntry] at h
  | str s => simp [cleanPortEntry] at h
  | list xs => simp [cleanPortEntry] at h

/-- The per-entry transformation applied by `cleanSpec` after key stripping. -/
def cleanSpecEntry (e : String × Val) : Option (String × Val) :=
  if e.1 = "ports" then
    match e.2 with
    | Val.list ps => (mapOpt cleanPortEntry ps).bind (fun ps2 => some (e.1, Val.list ps2))
    | v => some (e.1, v)
  else some e

theorem cleanSpec_obj (s : Entries) :
    cleanSpec (Val.obj s) =
      (mapOpt cleanSpecEntry (s.filter (fun e => ¬ (e.1 ∈ cleanRulesSpec)))).bind
        (fun s2 => some (Val.obj s2)) := rfl

theorem cleanSpecEntry_key (e e2 : String × Val) (h : cleanSpecEntry e = some e2) :
    e2.1 = e.1 := by
  unfold cleanSpecEntry at h
  by_cases h1 : e.1 = "ports"
  · rw [if_pos h1] at h
    cases hv : e.2 with
    | list ps =>
        rw [hv] at h
        simp only [Option.bind_eq_some, Option.some.injEq] at h
        obtain ⟨ps2, _, h2⟩ := h
        rw [← h2]
    | null => rw [hv] at h; simp only [Option.some.injEq] at h; rw [← h]
    | bool b => rw [hv] at h; simp only [Option.some.injEq] at h; rw [← h]
    | int n => rw [hv] at h; simp only [Option.some.injEq] at h; rw [← h]
    | str s => rw [hv] at h; simp only [Option.some.injEq] at h; rw [← h]
    | obj es => rw [hv] at h; simp only [Option.some.injEq] at h; rw [← h]
  · rw [if_neg h1] at h
    simp only [Option.some.injEq] at h
    rw [← h]

theorem cleanSpecEntry_stable (e e2 : String × Val) (h : cleanSpecEntry e = some e2) :
    cleanSpecEntry e2 = some e2 := by
  unfold cleanSpecEntry at h ⊢
  by_cases h1 : e.1 = "ports"
  · rw [if_pos h1] at h
    cases hv : e.2 with
    | list ps =>
        rw [hv] at h
        simp only [Option.bind_eq_some, Option.some.injEq] at h
        obtain ⟨ps2, hps2, h2⟩ := h
        subst h2
        rw [if_pos (show (e.1, Val.list ps2).1 = "ports" from h1)]
        simp only [Option.bind_eq_some, Option.some.injEq]
        exact ⟨ps2, mapOpt_stable cleanPortEntry_stable hps2, rfl⟩
    | null =>
        rw [hv] at h
        simp only [Option.some.injEq] at h
        subst h
        rw [if_pos (show (e.1, Val.null).1 = "ports" from h1)]
    | bool b =>
        rw [hv] at h
        simp only [Option.some.injEq] at h
        subst h
        rw [if_pos (show (e.1, Val.bool b).1 = "ports" from h1)]
    | int n =>
        rw [hv] at h
        simp only [Option.some.injEq] at h
        subst h
        rw [if_pos (show (e.1, Val.int n).1 = "ports" from h1)]
    | str s =>
        rw [hv] at h
        simp only [Option.some.injEq] at h
        subst h
        rw [if_pos (show (e.1, Val.str s).1 = "ports" from h1)]
    | obj es =>
        rw [hv] at h
        simp only [Option.some.injEq] at h
        subst h
        rw [if_pos (show (e.1, Val.obj es).1 = "ports" from h1)]
  · rw [if_neg h1] at h
    simp only [Option.some.injEq] at h
    subst h
    rw [if_neg h1]

theorem cleanSpec_stable (v w : Val) (h : cleanSpec v = some w) :
    cleanSpec w = some w := by
  cases v with
  | obj s =>
      rw [cleanSpec_obj] at h
      simp only [Option.bind_eq_bind, Option.bind_eq_some, Option.pure_def,
        Option.some.injEq] at h
      obtain ⟨s2, hs2, hw⟩ := h
      subst hw
      rw [cleanSpec_obj]
      have hfix : s2.filter (fun e => ¬ (e.1 ∈ cleanRulesSpec)) = s2 := by
        rw [List.filter_eq_self]
        intro e he
        obtain ⟨a, ha, hfa⟩ := mapOpt_mem hs2 e he
        have hk := cleanSpecEntry_key a e hfa
        have ha2 := List.of_mem_filter ha
        simpa [hk] using ha2
      rw [hfix]
      simp only [Option.bind_eq_bind, Option.bind_eq_some]
      exact ⟨s2, mapOpt_stable cleanSpecEntry_stable hs2, rfl⟩
  | null => simp only [cleanSpec, Option.pure_def, Option.some.injEq] at h; subst h; rfl
  | bool b => simp only [cleanSpec, Option.pure_def, Option.some.injEq] at h; subst h; rfl
  | int n => simp only [cleanSpec, Option.pure_def, Option.some.injEq] at h; subst h; rfl
  | str s => simp only [cleanSpec, Option.pure_def, Option.some.injEq] at h; subst h; rfl
  | list xs => simp only [cleanSpec, Option.pure_def, Option.some.injEq] at h; subst h; rfl

/-- The per-entry transformation applied by `clean_yaml` after the `status` pop. -/
def cleanTopEntry (e : String × Val) : Option (String × Val) :=
  if e.1 = "metadata" then some (e.1, cleanMeta e.2)
  else if e.1 = "spec" then (cleanSpec e.2).bind (fun s => some (e.1, s))
  else some e

theorem clean_yaml_obj (entries : Entries) :
    clean_yaml (Val.obj entries) =
      (mapOpt cleanTopEntry (entries.filter (fun e => e.1 ≠ "status"))).bind
        (fun e2 => some (Val.obj e2)) := rfl

theorem cleanTopEntry_key (e e2 : String × Val) (h : cleanTopEntry e = some e2) :
    e2.1 = e.1 := by
  unfold cleanTopEntry at h
  by_cases h1 : e.1 = "metadata"
  · rw [if_pos h1] at h
    simp only [Option.some.injEq] at h
    rw [← h]
  · by_cases h2 : e.1 = "spec"
    · rw [if_neg h1, if_pos h2] at h
      simp only [Option.bind_eq_some, Option.some.injEq] at h
      obtain ⟨s, _, hs⟩ := h
      rw [← hs]
    · rw [if_neg h1, if_neg h2] at h
      simp only [Option.some.injEq] at h
      rw [← h]

theorem cleanTopEntry_stable (e e2 : String × Val) (h : cleanTopEntry e = some e2) :
    cleanTopEntry e2 = some e2 := by
  unfold cleanTopEntry at h ⊢
  by_cases h1 : e.1 = "metadata"
  · rw [if_pos h1] at h
    simp only [Option.some.injEq] at h
    subst h
    rw [if_pos (show (e.1, cleanMeta e.2).1 = "metadata" from h1)]
    rw [show cleanMeta (e.1, cleanMeta e.2).2 = cleanMeta e.2 from cleanMeta_idem e.2]
  · by_cases h2 : e.1 = "spec"
    · rw [if_neg h1, if_pos h2] at h
      simp only [Option.bind_eq_some, Option.some.injEq] at h
      obtain ⟨s, hs, hs2⟩ := h
      subst hs2
      rw [if_neg (show ¬ (e.1, s).1 = "metadata" from h1),
          if_pos (show (e.1, s).1 = "spec" from h2)]
      simp only [Option.bind_eq_some, Option.some.injEq]
      exact ⟨s, cleanSpec_stable e.2 s hs, rfl⟩
    · rw [if_neg h1, if_neg h2] at h
      simp only [Option.some.injEq] at h
      subst h
      rw [if_neg h1, if_neg h2]

/-- Claim C6: the Manifest Sanitizer is idempotent — whenever `clean_yaml`
produces a cleaned object, cleaning that object again returns it unchanged
(`clean(clean(O)) == clean(O)`). -/
theorem c6_clean_yaml_idempotent (o r : Val) (h : clean_yaml o = some r) :
    clean_yaml r = some r := by
  cases o with
  | obj entries =>
      rw [clean_yaml_obj] at h
      simp only [Option.bind_eq_bind, Option.bind_eq_some, Option.pure_def,
        Option.some.injEq] at h
      obtain ⟨e2, he2, hr⟩ := h
      subst hr
      rw [clean_yaml_obj]
      have hfix : e2.filter (fun e => e.1 ≠ "status") = e2 := by
        rw [List.filter_eq_self]
        intro e he
        obtain ⟨a, ha, hfa⟩ := mapOpt_mem he2 e he
        have hk := cleanTopEntry_key a e hfa
        have ha2 := List.of_mem_filter ha
        simpa [hk] using ha2
      rw [hfix]
      simp only [Option.bind_eq_bind, Option.bind_eq_some]
      exact ⟨e2, mapOpt_stable cleanTopEntry_stable he2, rfl⟩
  | null => simp only [clean_yaml, Option.pure_def, Option.some.injEq] at h; subst h; rfl
  | bool b => simp only [clean_yaml, Option.pure_def, Option.some.injEq] at h; subst h; rfl
  | int n => simp only [clean_yaml, Option.pure_def, Option.some.injEq] at h; subst h; rfl
  | str s => simp only [clean_yaml, Option.pure_def, Option.some.injEq] at h; subst h; rfl
  | list xs => simp only [clean_yaml, Option.pure_def, Option.some.injEq] at h; subst h; rfl

/-- Witness for C6 on the spec's own sanitizer scenario (a Service carrying
`clusterIP` and a `nodePort`). -/
theorem c6_idempotent_witness :
    clean_yaml (Val.obj [("spec", Val.obj [("clusterIP", Val.str "10.0.0.5"),
        ("ports", Val.list [Val.obj [("port", Val.int 80), ("nodePort", Val.int 31000)]])])]) =
      some (Val.obj [("spec", Val.obj [("ports", Val.list [Val.obj [("port", Val.int 80)]])])]) ∧
    clean_yaml (Val.obj [("spec", Val.obj [("ports", Val.list [Val.obj [("port", Val.int 80)]])])]) =
      some (Val.obj [("spec", Val.obj [("ports", Val.list [Val.obj [("port", Val.int 80)]])])]) :=
  ⟨rfl, c6_clean_yaml_idempotent
    (Val.obj [("spec", Val.obj [("clusterIP", Val.str "10.0.0.5"),
      ("ports", Val.list [Val.obj [("port", Val.int 80), ("nodePort", Val.int 31000)]])])])
    (Val.obj [("spec", Val.obj [("ports", Val.list [Val.obj [("port", Val.int 80)]])])]) rfl⟩

/-- Claim C10: on any input that is not a mapping, `clean_yaml` is the
identity — the early `isinstance(obj, dict)` guard returns the value as is. -/
theorem c10_clean_non_mapping_identity (v : Val) (h : isMapping v = false) :
    clean_yaml v = some v := by
  cases v with
  | obj es => simp [isMapping] at h
  | null => rfl
  | bool b => rfl
  | int n => rfl
  | str s => rfl
  | list xs => rfl

/-- Witness for C10 at a string input. -/
theorem c10_witness :
    isMapping (Val.str "not-a-resource") = false ∧
    clean_yaml (Val.str "not-a-resource") = some (Val.str "not-a-resource") :=
  ⟨rfl, c10_clean_non_mapping_identity (Val.str "not-a-resource") rfl⟩

/- ---------------------------------------------------------------------------
C1: the sanitizer mutates the cached original through the shallow copy.
--------------------------------------------------------------------------- -/

/-- A Service object as cached in the snapshot, shared by two workloads. -/
def sharedService : Val :=
  Val.obj [("apiVersion", Val.str "v1"), ("kind", Val.str "Service"),
    ("metadata", Val.obj [("name", Val.str "web"), ("uid", Val.str "42"),
      ("annotations", Val.obj
        [("kubectl.kubernetes.io/last-applied-configuration", Val.str "x")])]),
    ("spec", Val.obj [("clusterIP", Val.str "10.0.0.5"),
      ("ports", Val.list [Val.obj [("port", Val.int 80), ("nodePort", Val.int 31000)]])]),
    ("status", Val.obj [("loadBalancer", Val.obj [])])]

/-- What the cached `sharedService` has become once `save_resource` sanitized a
shallow copy of it for the first workload: nested sections stripped, `status`
still present. -/
def sharedServiceAfterExport : Val :=
  Val.obj [("apiVersion", Val.str "v1"), ("kind", Val.str "Service"),
    ("metadata", Val.obj [("name", Val.str "web")]),
    ("spec", Val.obj [("ports", Val.list [Val.obj [("port", Val.int 80)]])]),
    ("status", Val.obj [("loadBalancer", Val.obj [])])]

/-- Claim C1 (violated by the code): `save_resource` passes only a shallow
copy to `clean_yaml`, whose in-place pops reach the cached original through
the shared nested maps — sanitizing a snapshot object for one workload
changes the original held in the cache, so the claimed purity fails. -/
theorem c1_sanitizer_mutates_cached_original :
    originalAfterSave sharedService = some sharedServiceAfterExport ∧
    sharedServiceAfterExport ≠ sharedService := by
  constructor
  · rfl
  · intro h
    simp [sharedService, sharedServiceAfterExport] at h

/- ---------------------------------------------------------------------------
Python `str()` of a value, used by the f-string building the StatefulSet PVC
name pattern.
--------------------------------------------------------------------------- -/

mutual

/-- Python `str(v)` for the values at hand (mappings/sequences use `repr`). -/
def pyStr : Val → String
  | Val.null => "None"
  | Val.bool b => if b then "True" else "False"
  | Val.int n => toString n
  | Val.str s => s
  | Val.list xs => "[" ++ pyReprList xs ++ "]"
  | Val.obj es => "\x7b" ++ pyReprEntries es ++ "\x7d"

/-- Python `repr(v)`: like `str` but strings are quoted. -/
def pyRepr : Val → String
  | Val.str s => "\x27" ++ s ++ "\x27"
  | Val.null => "None"
  | Val.bool b => if b then "True" else "False"
  | Val.int n => toString n
  | Val.list xs => "[" ++ pyReprList xs ++ "]"
  | Val.obj es => "\x7b" ++ pyReprEntries es ++ "\x7d"

/-- Comma-separated `repr`s of sequence elements. -/
def pyReprList : List Val → String
  | [] => ""
  | [x] => pyRepr x
  | x :: xs => pyRepr x ++ ", " ++ pyReprList xs

/-- Comma-separated `repr`s of mapping entries. -/
def pyReprEntries : Entries → String
  | [] => ""
  | [(k, v)] => "\x27" ++ k ++ "\x27: " ++ pyRepr v
  | (k, v) :: es => "\x27" ++ k ++ "\x27: " ++ pyRepr v ++ ", " ++ pyReprEntries es

end

/- ---------------------------------------------------------------------------
Reference Extractor: `extract_referenced_resources` (lines 333–415).
--------------------------------------------------------------------------- -/

/-- The accumulating result dict of `extract_referenced_resources`: four sets
of names.  Python sets are modelled as duplicate-free lists in insertion
order (set iteration order is unspecified in Python; only membership and
duplicate-freedom are relied on). -/
structure Referenced where
  configmaps : List Val
  secrets : List Val
  persistentvolumeclaims : List Val
  serviceaccounts : List Val
deriving DecidableEq

/-- `set.add`: no duplicates. -/
def addRef (l : List Val) (v : Val) : List Val :=
  if v ∈ l then l else l ++ [v]

/-- One iteration of `for volume in pod_spec.get('volumes', [])`
(lines 377–383): the `if 'configMap' in volume / elif 'secret' in volume /
elif 'persistentVolumeClaim' in volume` classification. -/
def volumeAdd (r : Referenced) (volume : Val) : Option Referenced := do
  let es ← pyItems volume
  if hasKey es "configMap" then do
    let cm ← pyIndex volume "configMap"
    let n ← pyIndex cm "name"
    pure { r with configmaps := addRef r.configmaps n }
  else if hasKey es "secret" then do
    let s ← pyIndex volume "secret"
    let n ← pyIndex s "secretName"
    pure { r with secrets := addRef r.secrets n }
  else if hasKey es "persistentVolumeClaim" then do
    let p ← pyIndex volume "persistentVolumeClaim"
    let n ← pyIndex p "claimName"
    pure { r with persistentvolumeclaims := addRef r.persistentvolumeclaims n }
  else pure r

/-- One iteration over `container.get('env', [])` (lines 388–393). -/
def envAdd (r : Referenced) (env : Val) : Option Referenced := do
  let es ← pyItems env
  if hasKey es "valueFrom" then do
    let vf ← pyIndex env "valueFrom"
    let vfes ← pyItems vf
    if hasKey vfes "configMapKeyRef" then do
      let ref ← pyIndex vf "configMapKeyRef"
      let n ← pyIndex ref "name"
      pure { r with configmaps := addRef r.configmaps n }
    else if hasKey vfes "secretKeyRef" then do
      let ref ← pyIndex vf "secretKeyRef"
      let n ← pyIndex ref "name"
      pure { r with secrets := addRef r.secrets n }
    else pure r
  else pure r

/-- One iteration over `container.get('envFrom', [])` (lines 396–400). -/
def envFromAdd (r : Referenced) (envFrom : Val) : Option Referenced := do
  let es ← pyItems envFrom
  if hasKey es "configMapRef" then do
    let ref ← pyIndex envFrom "configMapRef"
    let n ← pyIndex ref "name"
    pure { r with configmaps := addRef r.configmaps n }
  else if hasKey es "secretRef" then do
    let ref ← pyIndex envFrom "secretRef"
    let n ← pyIndex ref "name"
    pure { r with secrets := addRef r.secrets n }
  else pure r

/-- One container of `containers + initContainers` (lines 386–400). -/
def containerAdd (r : Referenced) (container : Val) : Option Referenced := do
  let envs ← pyGet container "env" (Val.list [])
  let envList ← pyElems envs
  let r2 ← foldOpt envAdd envList r
  let efs ← pyGet container "envFrom" (Val.list [])
  let efList ← pyElems efs
  foldOpt envFromAdd efList r2

/-- One `volumeClaimTemplates` entry for a StatefulSet (lines 404–413):
pattern-match the snapshot's PVC names against `f"{pvc_name}-{ss_name}-"`. -/
def vctAdd (workload_obj : Val) (pvcNames : List String) (r : Referenced) (vct : Val) :
    Option Referenced := do
  let meta ← pyGet vct "metadata" (Val.obj [])
  let pvc_name ← pyGet meta "name" Val.null
  if truthy pvc_name then do
    let wmeta ← pyGet workload_obj "metadata" (Val.obj [])
    let ss_name ← pyGet wmeta "name" Val.null
    let pat := pyStr pvc_name ++ "-" ++ pyStr ss_name ++ "-"
    let pvcs := pvcNames.foldl
      (fun acc n => if strStartsWith n pat then addRef acc (Val.str n) else acc)
      r.persistentvolumeclaims
    pure { r with persistentvolumeclaims := pvcs }
  else pure r

/-- `extract_referenced_resources(workload_obj, workload_type)` (lines
333–415).  `pvcNames` are the keys of `self.all_resources['persistentvolumeclaims']`. -/
def extract_referenced_resources (workload_obj : Val) (workload_type : String)
    (pvcNames : List String) : Option Referenced := do
  let r0 : Referenced := ⟨[], [], [], []⟩
  let pod_spec ←
    if workload_type = "deployments" ∨ workload_type = "statefulsets" then
      chainGet workload_obj ["spec", "template", "spec"]
    else if workload_type = "cronjobs" then
      chainGet workload_obj ["spec", "jobTemplate", "spec", "template", "spec"]
    else if workload_type = "jobs" then
      chainGet workload_obj ["spec", "template", "spec"]
    else pure Val.null
  if ¬ truthy pod_spec then return r0
  let saA ← pyGet pod_spec "serviceAccountName" Val.null
  let saB ← pyGet pod_spec "serviceAccount" Val.null
  let sa := if truthy saA then saA else saB
  let r1 := if truthy sa ∧ sa ≠ Val.str "default"
    then { r0 with serviceaccounts := addRef r0.serviceaccounts sa } else r0
  let vols ← pyGet pod_spec "volumes" (Val.list [])
  let volList ← pyElems vols
  let r2 ← foldOpt volumeAdd volList r1
  let cs ← pyGet pod_spec "containers" (Val.list [])
  let csList ← pyElems cs
  let ics ← pyGet pod_spec "initContainers" (Val.list [])
  let icsList ← pyElems ics
  let r3 ← foldOpt containerAdd (csList ++ icsList) r2
  if workload_type = "statefulsets" then do
    let wspec ← pyGet workload_obj "spec" (Val.obj [])
    let vcts ← pyGet wspec "volumeClaimTemplates" (Val.list [])
    let vctList ← pyElems vcts
    foldOpt (vctAdd workload_obj pvcNames) vctList r3
  else pure r3

/- ---------------------------------------------------------------------------
Selector Matcher: `find_matching_services` (417–443) and
`find_related_networkpolicies` (560–584).
--------------------------------------------------------------------------- -/

/-- `all(workload_labels.get(k) == v for k, v in selector.items())` with the
generator's left-to-right short-circuit. -/
def allSelectorSubset (workload_labels : Val) : Entries → Option Bool
  | [] => some true
  | (k, v) :: rest => do
      let x ← pyGet workload_labels k Val.null
      if x = v then allSelectorSubset workload_labels rest else pure false

/-- One service of the `find_matching_services` loop (lines 437–441):
append iff the selector is truthy and its pairs all agree with the workload
labels. -/
def svcStep (workload_labels : Val) (acc : List String) (svc : String × Val) :
    Option (List String) := do
  let spec ← pyGet svc.2 "spec" (Val.obj [])
  let svc_selector ← pyGet spec "selector" (Val.obj [])
  if truthy svc_selector then do
    let items ← pyItems svc_selector
    let ok ← allSelectorSubset workload_labels items
    if ok then pure (acc ++ [svc.1]) else pure acc
  else pure acc

/-- `find_matching_services(workload_obj)`: services whose non-empty
`spec.selector` is contained in `spec.selector.matchLabels` of the workload. -/
def find_matching_services (workload_obj : Val) (snap : Snap) : Option (List String) := do
  let workload_labels ← chainGet workload_obj ["spec", "selector", "matchLabels"]
  if ¬ truthy workload_labels then return []
  foldOpt (svcStep workload_labels) (snapGet snap "services") []

/-- One policy of the `find_related_networkpolicies` loop (lines 578–582). -/
def npStep (workload_labels : Val) (acc : List String) (np : String × Val) :
    Option (List String) := do
  let spec ← pyGet np.2 "spec" (Val.obj [])
  let podSel ← pyGet spec "podSelector" (Val.obj [])
  let pod_selector ← pyGet podSel "matchLabels" (Val.obj [])
  if truthy pod_selector then do
    let items ← pyItems pod_selector
    let ok ← allSelectorSubset workload_labels items
    if ok then pure (acc ++ [np.1]) else pure acc
  else pure acc

/-- `find_related_networkpolicies(workload_obj)`: same subset rule against the
pod template labels; no early return on empty labels. -/
def find_related_networkpolicies (workload_obj : Val) (snap : Snap) :
    Option (List String) := do
  let workload_labels ← chainGet workload_obj ["spec", "template", "metadata", "labels"]
  foldOpt (npStep workload_labels) (snapGet snap "networkpolicies") []

/- ---------------------------------------------------------------------------
Route Resolver: `find_matching_ingresses_and_routes` (445–476).
--------------------------------------------------------------------------- -/

/-- `path.get('backend', {}).get('service', {}).get('name')`. -/
def backendServiceName (path : Val) : Option Val := do
  let b ← pyGet path "backend" (Val.obj [])
  let s ← pyGet b "service" (Val.obj [])
  pyGet s "name" Val.null

/-- `x in service_names` for a list of name strings. -/
def valInNames (v : Val) (names : List String) : Bool :=
  match v with
  | Val.str s => s ∈ names
  | _ => false

/-- Scan one rule's paths left to right, stopping at the first matching
backend (the `break` at line 468 exits only this inner loop). -/
def ruleHasMatchingPath (service_names : List String) : List Val → Option Bool
  | [] => some false
  | p :: rest => do
      let bs ← backendServiceName p
      if valInNames bs service_names then pure true
      else ruleHasMatchingPath service_names rest

/-- Does one rule (one entry of `spec.rules`) have a path whose backend
targets one of the services?  Combines the `rule.get('http', {}).get('paths',
[])` access with the path scan. -/
def ruleMatches (service_names : List String) (rule : Val) : Option Bool := do
  let http ← pyGet rule "http" (Val.obj [])
  let paths ← pyGet http "paths" (Val.list [])
  let pathList ← pyElems paths
  ruleHasMatchingPath service_names pathList

/-- One rule of one Ingress (lines 462–468): the `break` makes each rule
contribute the Ingress at most once, but each matching rule appends again. -/
def ingRuleStep (service_names : List String) (ing_name : String)
    (acc2 : List (String × String)) (rule : Val) : Option (List (String × String)) := do
  let m ← ruleMatches service_names rule
  if m then pure (acc2 ++ [("ingresses", ing_name)]) else pure acc2

/-- One Ingress of the snapshot (lines 461–468). -/
def ingStep (service_names : List String) (acc : List (String × String))
    (ing : String × Val) : Option (List (String × String)) := do
  let spec ← pyGet ing.2 "spec" (Val.obj [])
  let rules ← pyGet spec "rules" (Val.list [])
  let ruleList ← pyElems rules
  foldOpt (ingRuleStep service_names ing.1) ruleList acc

/-- One Route of the snapshot (lines 471–474). -/
def routeStep (service_names : List String) (acc : List (String × String))
    (route : String × Val) : Option (List (String × String)) := do
  let spec ← pyGet route.2 "spec" (Val.obj [])
  let toObj ← pyGet spec "to" (Val.obj [])
  let route_service ← pyGet toObj "name" Val.null
  if valInNames route_service service_names then pure (acc ++ [("routes", route.1)])
  else pure acc

/-- `find_matching_ingresses_and_routes(service_names)` (445–476). -/
def find_matching_ingresses_and_routes (service_names : List String) (snap : Snap) :
    Option (List (String × String)) := do
  let withIngs ← foldOpt (ingStep service_names) (snapGet snap "ingresses") []
  foldOpt (routeStep service_names) (snapGet snap "routes") withIngs

/- ---------------------------------------------------------------------------
HPA lookup: `find_related_hpa` (478–498).
--------------------------------------------------------------------------- -/

/-- Python `workload_type.rstrip('s')`: strip every trailing `s`. -/
def rstripS (s : String) : String :=
  String.mk ((s.data.reverse.dropWhile (fun c => c = 's')).reverse)

/-- The loop body of `find_related_hpa`: first HPA whose
`spec.scaleTargetRef` names this workload, `None` when none does.  The
lower-cased kind comparison raises on a non-string kind (`.lower()`). -/
def findHpaLoop (workload_name workload_type : String) : Entries → Option (Option String)
  | [] => some none
  | (hpa_name, hpa_obj) :: rest => do
      let spec ← pyGet hpa_obj "spec" (Val.obj [])
      let target_ref ← pyGet spec "scaleTargetRef" (Val.obj [])
      let nm ← pyGet target_ref "name" Val.null
      if nm = Val.str workload_name then do
        let kd ← pyGet target_ref "kind" (Val.str "")
        match kd with
        | Val.str s =>
            if pyLower s = rstripS workload_type then pure (some hpa_name)
            else findHpaLoop workload_name workload_type rest
        | _ => none
      else findHpaLoop workload_name workload_type rest

/-- `find_related_hpa(workload_name, workload_type)`. -/
def find_related_hpa (workload_name workload_type : String) (snap : Snap) :
    Option (Option String) :=
  findHpaLoop workload_name workload_type (snapGet snap "horizontalpodautoscalers")

/- ---------------------------------------------------------------------------
RBAC Resolver: `find_rbac_for_serviceaccount` (500–558).
--------------------------------------------------------------------------- -/

/-- The four category lists accumulated by `find_rbac_for_serviceaccount`.
Binding names are snapshot dict keys (strings); role names come out of
`roleRef.get('name')` and stay values. -/
structure Rbac where
  roles : List Val
  rolebindings : List String
  clusterroles : List Val
  clusterrolebindings : List String
deriving DecidableEq

/-- `subject.get('kind') == 'ServiceAccount' and subject.get('name') == sa_name
and subject.get('namespace', self.namespace) == self.namespace` (524–526). -/
def subjectMatches (ns : String) (sa_name : Val) (subject : Val) : Option Bool := do
  let k ← pyGet subject "kind" Val.null
  if k = Val.str "ServiceAccount" then do
    let n ← pyGet subject "name" Val.null
    if n = sa_name then do
      let snv ← pyGet subject "namespace" (Val.str ns)
      pure (snv = Val.str ns)
    else pure false
  else pure false

/-- RoleBinding `roleRef` resolution (530–540): a `Role` is added only when
present in the snapshot; a `ClusterRole` is added by name unconditionally.
Both adds are deduplicated by a membership test. -/
def roleBindingRoleRef (snap : Snap) (rb_obj : Val) (acc : Rbac) : Option Rbac := do
  let role_ref ← pyGet rb_obj "roleRef" (Val.obj [])
  let kd ← pyGet role_ref "kind" Val.null
  if kd = Val.str "Role" then do
    let role_name ← pyGet role_ref "name" Val.null
    if truthy role_name ∧ nameInSnap role_name (snapGet snap "roles") then
      if role_name ∈ acc.roles then pure acc
      else pure { acc with roles := acc.roles ++ [role_name] }
    else pure acc
  else if kd = Val.str "ClusterRole" then do
    let cluster_role_name ← pyGet role_ref "name" Val.null
    if truthy cluster_role_name ∧ ¬ (cluster_role_name ∈ acc.clusterroles) then
      pure { acc with clusterroles := acc.clusterroles ++ [cluster_role_name] }
    else pure acc
  else pure acc

/-- One subject of one RoleBinding (523–540): on a match the binding name is
appended (no deduplication) and its roleRef is resolved. -/
def processRoleBindingSubject (ns : String) (sa : Val) (snap : Snap) (rb_name : String)
    (rb_obj : Val) (acc : Rbac) (subject : Val) : Option Rbac := do
  let m ← subjectMatches ns sa subject
  if m then
    roleBindingRoleRef snap rb_obj
      { acc with rolebindings := acc.rolebindings ++ [rb_name] }
  else pure acc

/-- One RoleBinding of the snapshot (521–540). -/
def processRoleBinding (ns : String) (sa : Val) (snap : Snap) (acc : Rbac)
    (rb : String × Val) : Option Rbac := do
  let subjects ← pyGet rb.2 "subjects" (Val.list [])
  let subjList ← pyElems subjects
  foldOpt (fun a s => processRoleBindingSubject ns sa snap rb.1 rb.2 a s) subjList acc

/-- ClusterRoleBinding `roleRef` resolution (551–556). -/
def clusterRoleBindingRoleRef (crb_obj : Val) (acc : Rbac) : Option Rbac := do
  let role_ref ← pyGet crb_obj "roleRef" (Val.obj [])
  let kd ← pyGet role_ref "kind" Val.null
  if kd = Val.str "ClusterRole" then do
    let cluster_role_name ← pyGet role_ref "name" Val.null
    if truthy cluster_role_name ∧ ¬ (cluster_role_name ∈ acc.clusterroles) then
      pure { acc with clusterroles := acc.clusterroles ++ [cluster_role_name] }
    else pure acc
  else pure acc

/-- One ClusterRoleBinding of the snapshot (543–556). -/
def processClusterRoleBinding (ns : String) (sa : Val) (acc : Rbac)
    (crb : String × Val) : Option Rbac := do
  let subjects ← pyGet crb.2 "subjects" (Val.list [])
  let subjList ← pyElems subjects
  foldOpt (fun a s => do
      let m ← subjectMatches ns sa s
      if m then
        clusterRoleBindingRoleRef crb.2
          { a with clusterrolebindings := a.clusterrolebindings ++ [crb.1] }
      else pure a) subjList acc

/-- `find_rbac_for_serviceaccount(sa_name)` (500–558): the RoleBinding scan
followed by the ClusterRoleBinding scan. -/
def find_rbac_for_serviceaccount (ns : String) (sa_name : Val) (snap : Snap) :
    Option Rbac := do
  let acc1 ← foldOpt (processRoleBinding ns sa_name snap)
    (snapGet snap "rolebindings") ⟨[], [], [], []⟩
  foldOpt (processClusterRoleBinding ns sa_name) (snapGet snap "clusterrolebindings") acc1

/- ---------------------------------------------------------------------------
Resource Snapshot Cache: `cache_all_resources` (206–239) and the skip filters.
--------------------------------------------------------------------------- -/

def WORKLOAD_RESOURCES : List String := ["deployments", "statefulsets", "cronjobs", "jobs"]

def RELATED_RESOURCES : List String :=
  ["configmaps", "secrets", "services", "persistentvolumeclaims", "serviceaccounts",
   "roles", "rolebindings", "clusterroles", "clusterrolebindings", "ingresses",
   "routes", "networkpolicies", "horizontalpodautoscalers"]

/-- `should_skip_resource` (307–331). -/
def should_skip_resource (resource_type name : String) : Bool :=
  if resource_type = "serviceaccounts" ∧ name = "default" then true
  else if (resource_type = "configmaps" ∨ resource_type = "secrets") ∧
      (strStartsWith name "kube-" ∨ strStartsWith name "default-token-" ∨
        strStartsWith name "sh.helm.release") then true
  else false

def systemClusterPrefixes : List String :=
  ["system:", "cluster-admin", "admin", "edit", "view", "kubeadm:", "node-", "kubernetes-"]

/-- `should_skip_cluster_resource` (261–289) up to its `return False`: the
statements after that return (lines 291–305, the whole cluster-scoped caching
loop, complete with its own comments) are unreachable dead code sitting inside
this function body. -/
def should_skip_cluster_resource (_resource_type name : String) : Bool :=
  systemClusterPrefixes.any (fun p => strStartsWith name p)

/-- The abstract cluster source behind `run_cmd`-based fetching: name listing
per kind, the labels/ownerReferences managed probe (`is_managed`, 164–184),
and the full-object fetch (`get_resource_yaml`, 186–204, `None` on failure). -/
structure ClusterSource where
  listNames : String → List String
  isManaged : String → String → Bool
  getYaml : String → String → Option Val

/-- The kinds handled by the only reachable loop of `cache_all_resources`
(lines 219–220): everything except the cluster-scoped RBAC kinds. -/
def namespaceScopedKinds : List String :=
  (WORKLOAD_RESOURCES ++ RELATED_RESOURCES).filter
    (fun r => ¬ (r ∈ ["clusterroles", "clusterrolebindings"]))

/-- `cache_all_resources` (206–239): for each namespace-scoped kind, list
names, drop skip-filtered and managed ones, fetch and keep the parsed object
when retrieval succeeds.  No other population of `self.all_resources` is
reachable: the cluster-scoped loop exists only as dead code after the
`return False` of `should_skip_cluster_resource`. -/
def cache_all_resources (src : ClusterSource) : Snap :=
  namespaceScopedKinds.map (fun resource_type =>
    (resource_type, (src.listNames resource_type).filterMap (fun name =>
      if should_skip_resource resource_type name then none
      else if src.isManaged resource_type name then none
      else (src.getYaml resource_type name).map (fun obj => (name, obj)))))

/- ---------------------------------------------------------------------------
Closure Builder: `process_workload` (685–773).  The `related_resources` list
is modelled as (kind, name) pairs; the source formats each as the string
`f"{kind}/{name}"`.
--------------------------------------------------------------------------- -/

/-- A guarded append `if resource_name in self.all_resources.get(rt, {}):
related_resources.append(...)`: produces the pair when the name is a string
present in the snapshot, nothing otherwise (a non-string is simply not a key). -/
def guardAppend (snap : Snap) (rt : String) (v : Val) : Option (String × String) :=
  match v with
  | Val.str s => if hasKey (snapGet snap rt) s then some (rt, s) else none
  | _ => none

/-- `referenced.items()` in dict insertion order (lines 350–355). -/
def refCategories (referenced : Referenced) : List (String × List Val) :=
  [("configmaps", referenced.configmaps), ("secrets", referenced.secrets),
   ("persistentvolumeclaims", referenced.persistentvolumeclaims),
   ("serviceaccounts", referenced.serviceaccounts)]

/-- `rbac_resources.items()` in dict insertion order (lines 513–518). -/
def rbacCategories (r : Rbac) : List (String × List Val) :=
  [("roles", r.roles), ("rolebindings", r.rolebindings.map Val.str),
   ("clusterroles", r.clusterroles), ("clusterrolebindings", r.clusterrolebindings.map Val.str)]

/-- One referenced ServiceAccount of the `process_workload` RBAC step (lines
724–735): if it is in the snapshot, resolve its RBAC and append the
snapshot-present results in category order. -/
def saStep (ns : String) (snap : Snap) (acc : List (String × String)) (sa : Val) :
    Option (List (String × String)) := do
  if nameInSnap sa (snapGet snap "serviceaccounts") then do
    let rbac ← find_rbac_for_serviceaccount ns sa snap
    pure (acc ++ (rbacCategories rbac).flatMap
      (fun c => c.2.filterMap (fun v => guardAppend snap c.1 v)))
  else pure acc

/-- The HPA step of `process_workload` (lines 756–761): `if hpa_name and
hpa_name in self.all_resources.get('horizontalpodautoscalers', {})`. -/
def hpaSectionOf (snap : Snap) (hpaOpt : Option String) : List (String × String) :=
  match hpaOpt with
  | some h =>
      if h ≠ "" then (guardAppend snap "horizontalpodautoscalers" (Val.str h)).toList
      else []
  | none => []

/-- `process_workload(workload_type, workload_name, workload_obj)` (685–773):
the ordered `related_resources` closure of one workload.  `ns` is
`self.namespace`. -/
def process_workload (ns : String) (workload_type workload_name : String)
    (workload_obj : Val) (snap : Snap) : Option (List (String × String)) := do
  let selfRef := [(workload_type, workload_name)]
  let referenced ← extract_referenced_resources workload_obj workload_type
    ((snapGet snap "persistentvolumeclaims").map (fun e => e.1))
  let refsSection := (refCategories referenced).flatMap
    (fun c => c.2.filterMap (fun v => guardAppend snap c.1 v))
  let rbacSection ← foldOpt (saStep ns snap) referenced.serviceaccounts []
  let matching_services ← find_matching_services workload_obj snap
  let svcSection := matching_services.filterMap
    (fun s => guardAppend snap "services" (Val.str s))
  let ing_routes ← find_matching_ingresses_and_routes matching_services snap
  let ingSection := ing_routes.filterMap
    (fun p => guardAppend snap p.1 (Val.str p.2))
  let hpaOpt ← find_related_hpa workload_name workload_type snap
  let hpaSection := hpaSectionOf snap hpaOpt
  let netpols ← find_related_networkpolicies workload_obj snap
  let npSection := netpols.filterMap (fun s => guardAppend snap "networkpolicies" (Val.str s))
  pure (selfRef ++ refsSection ++ rbacSection ++ svcSection ++ ingSection ++
    hpaSection ++ npSection)

/- ---------------------------------------------------------------------------
General lemmas about `foldOpt`.
--------------------------------------------------------------------------- -/

theorem foldOpt_nil {f : β → α → Option β} {b : β} : foldOpt f [] b = some b := rfl

theorem foldOpt_cons {f : β → α → Option β} {a : α} {l : List α} {b : β} :
    foldOpt f (a :: l) b = (f b a).bind (fun b2 => foldOpt f l b2) := rfl

/-- An invariant preserved by every step of a monadic fold holds of its result. -/
theorem foldOpt_inv {f : β → α → Option β} {P : β → Prop}
    (hf : ∀ b a b2, P b → f b a = some b2 → P b2) :
    ∀ {l : List α} {b r : β}, foldOpt f l b = some r → P b → P r := by
  intro l
  induction l with
  | nil =>
      intro b r h hb
      rw [foldOpt_nil] at h
      injection h with h
      subst h
      exact hb
  | cons a t ih =>
      intro b r h hb
      rw [foldOpt_cons] at h
      simp only [Option.bind_eq_some] at h
      obtain ⟨b2, hb2, hrest⟩ := h
      exact ih hrest (hf b a b2 hb hb2)

/- ---------------------------------------------------------------------------
C2: the snapshot never holds cluster-scoped RBAC entries.
--------------------------------------------------------------------------- -/

theorem namespaceScopedKinds_eval : namespaceScopedKinds =
    ["deployments", "statefulsets", "cronjobs", "jobs", "configmaps", "secrets",
     "services", "persistentvolumeclaims", "serviceaccounts", "roles", "rolebindings",
     "ingresses", "routes", "networkpolicies", "horizontalpodautoscalers"] := rfl

/-- Claim C2 (violated by the code): building the snapshot is supposed to
populate the cluster-scoped RBAC kinds, but `cache_all_resources` only ever
loops over the namespace-scoped kinds — the loop meant to fetch ClusterRoles
and ClusterRoleBindings sits after the `return False` of
`should_skip_cluster_resource` (lines 291–305) and is unreachable.  For every
cluster source and every resource name, the built snapshot has no
`clusterroles` and no `clusterrolebindings` entry. -/
theorem c2_cluster_rbac_never_cached (src : ClusterSource) (name : String) :
    lookupKey (snapGet (cache_all_resources src) "clusterroles") name = none ∧
    lookupKey (snapGet (cache_all_resources src) "clusterrolebindings") name = none := by
  have h1 : snapGet (cache_all_resources src) "clusterroles" = [] := by
    simp [cache_all_resources, namespaceScopedKinds_eval, snapGet, List.find?]
  have h2 : snapGet (cache_all_resources src) "clusterrolebindings" = [] := by
    simp [cache_all_resources, namespaceScopedKinds_eval, snapGet, List.find?]
  rw [h1, h2]
  exact ⟨rfl, rfl⟩

/- ---------------------------------------------------------------------------
C9: exclusive volume-entry classification.
--------------------------------------------------------------------------- -/

/-- Claim C9: the `if / elif / elif` over a volume entry is exclusive with the
fixed precedence configMap → secret → persistentVolumeClaim: an entry carrying
a `configMap` key adds only the configMap name; one without `configMap` but
with `secret` adds only the secret name; one with neither but with
`persistentVolumeClaim` adds only the claim name; serviceaccounts are never
touched and one entry never feeds two sets. -/
theorem c9_volume_classification_exclusive (r r2 : Referenced) (vol : Val) (es : Entries)
    (hes : pyItems vol = some es) (h : volumeAdd r vol = some r2) :
    r2.serviceaccounts = r.serviceaccounts ∧
    (hasKey es "configMap" = true →
      r2.secrets = r.secrets ∧ r2.persistentvolumeclaims = r.persistentvolumeclaims ∧
      ∃ cm n, pyIndex vol "configMap" = some cm ∧ pyIndex cm "name" = some n ∧
        r2.configmaps = addRef r.configmaps n) ∧
    (hasKey es "configMap" = false → hasKey es "secret" = true →
      r2.configmaps = r.configmaps ∧ r2.persistentvolumeclaims = r.persistentvolumeclaims ∧
      ∃ sv n, pyIndex vol "secret" = some sv ∧ pyIndex sv "secretName" = some n ∧
        r2.secrets = addRef r.secrets n) ∧
    (hasKey es "configMap" = false → hasKey es "secret" = false →
      hasKey es "persistentVolumeClaim" = true →
      r2.configmaps = r.configmaps ∧ r2.secrets = r.secrets ∧
      ∃ pv n, pyIndex vol "persistentVolumeClaim" = some pv ∧
        pyIndex pv "claimName" = some n ∧
        r2.persistentvolumeclaims = addRef r.persistentvolumeclaims n) ∧
    (hasKey es "configMap" = false → hasKey es "secret" = false →
      hasKey es "persistentVolumeClaim" = false → r2 = r) := by
  unfold volumeAdd at h
  rw [hes] at h
  simp only [Option.bind_eq_bind, Option.some_bind] at h
  by_cases h1 : hasKey es "configMap" = true
  · rw [if_pos h1] at h
    simp only [Option.bind_eq_bind, Option.bind_eq_some, Option.pure_def,
      Option.some.injEq] at h
    obtain ⟨cm, hcm, n, hn, hr2⟩ := h
    subst hr2
    refine ⟨rfl, fun _ => ⟨rfl, rfl, cm, n, hcm, hn, rfl⟩, ?_, ?_, ?_⟩ <;>
      (intro hc; rw [hc] at h1; simp at h1)
  · rw [if_neg h1] at h
    rw [Bool.not_eq_true] at h1
    by_cases h2 : hasKey es "secret" = true
    · rw [if_pos h2] at h
      simp only [Option.bind_eq_bind, Option.bind_eq_some, Option.pure_def,
        Option.some.injEq] at h
      obtain ⟨sv, hsv, n, hn, hr2⟩ := h
      subst hr2
      refine ⟨rfl, ?_, fun _ _ => ⟨rfl, rfl, sv, n, hsv, hn, rfl⟩, ?_, ?_⟩
      · intro hc; rw [hc] at h1; simp at h1
      · intro _ hc; rw [hc] at h2; simp at h2
      · intro _ hc; rw [hc] at h2; simp at h2
    · rw [if_neg h2] at h
      rw [Bool.not_eq_true] at h2
      by_cases h3 : hasKey es "persistentVolumeClaim" = true
      · rw [if_pos h3] at h
        simp only [Option.bind_eq_bind, Option.bind_eq_some, Option.pure_def,
          Option.some.injEq] at h
        obtain ⟨pv, hpv, n, hn, hr2⟩ := h
        subst hr2
        refine ⟨rfl, ?_, ?_, fun _ _ _ => ⟨rfl, rfl, pv, n, hpv, hn, rfl⟩, ?_⟩
        · intro hc; rw [hc] at h1; simp at h1
        · intro _ hc; rw [hc] at h2; simp at h2
        · intro _ _ hc; rw [hc] at h3; simp at h3
      · rw [if_neg h3] at h
        simp only [Option.pure_def, Option.some.injEq] at h
        subst h
        refine ⟨rfl, ?_, ?_, ?_, fun _ _ _ => rfl⟩
        · intro hc; rw [hc] at h1; simp at h1
        · intro _ hc; rw [hc] at h2; simp at h2
        · intro _ _ hc; rw [hc] at h3; simp at h3

/-- A volume entry carrying both a `configMap` and a `secret` key. -/
def doubleKeyVolume : Val :=
  Val.obj [("configMap", Val.obj [("name", Val.str "cm1")]),
    ("secret", Val.obj [("secretName", Val.str "sec1")])]

/-- Witness for C9: on a volume entry with both `configMap` and `secret` keys,
only the configMap name is extracted. -/
theorem c9_exclusive_witness :
    volumeAdd ⟨[], [], [], []⟩ doubleKeyVolume = some ⟨[Val.str "cm1"], [], [], []⟩ ∧
    (⟨[Val.str "cm1"], [], [], []⟩ : Referenced).secrets = ([] : List Val) :=
  ⟨rfl, ((c9_volume_classification_exclusive ⟨[], [], [], []⟩ ⟨[Val.str "cm1"], [], [], []⟩
      doubleKeyVolume [("configMap", Val.obj [("name", Val.str "cm1")]),
        ("secret", Val.obj [("secretName", Val.str "sec1")])] rfl rfl).2.1 rfl).1⟩

/- ---------------------------------------------------------------------------
C5: every closure member other than the workload itself is in the snapshot.
--------------------------------------------------------------------------- -/

theorem guardAppend_sound (snap : Snap) (rt : String) (v : Val) (p : String × String)
    (h : guardAppend snap rt v = some p) :
    hasKey (snapGet snap p.1) p.2 = true := by
  cases v with
  | str s =>
      have h2 : (if hasKey (snapGet snap rt) s = true then
          some (rt, s) else none) = some p := h
      by_cases hk : hasKey (snapGet snap rt) s = true
      · rw [if_pos hk] at h2
        injection h2 with h2
        subst h2
        exact hk
      · rw [if_neg hk] at h2
        cases h2
  | null => simp [guardAppend] at h
  | bool b => simp [guardAppend] at h
  | int n => simp [guardAppend] at h
  | list xs => simp [guardAppend] at h
  | obj es => simp [guardAppend] at h

theorem saStep_sound (ns : String) (snap : Snap) (acc acc2 : List (String × String))
    (sa : Val) (h : saStep ns snap acc sa = some acc2)
    (hacc : ∀ p ∈ acc, hasKey (snapGet snap p.1) p.2 = true) :
    ∀ p ∈ acc2, hasKey (snapGet snap p.1) p.2 = true := by
  unfold saStep at h
  split at h
  · simp only [Option.bind_eq_bind, Option.bind_eq_some, Option.pure_def,
      Option.some.injEq] at h
    obtain ⟨rbac, _, hacc2⟩ := h
    subst hacc2
    intro p hp
    rcases List.mem_append.mp hp with hp | hp
    · exact hacc p hp
    · obtain ⟨c, _, hpc⟩ := List.mem_flatMap.mp hp
      obtain ⟨v, _, hg⟩ := List.mem_filterMap.mp hpc
      exact guardAppend_sound snap c.1 v p hg
  · simp only [Option.pure_def, Option.some.injEq] at h
    subst h
    exact hacc

theorem hpaSectionOf_sound (snap : Snap) (o : Option String) (p : String × String)
    (hp : p ∈ hpaSectionOf snap o) : hasKey (snapGet snap p.1) p.2 = true := by
  cases o with
  | none => cases hp
  | some hn =>
      simp only [hpaSectionOf] at hp
      by_cases hne : hn ≠ ""
      · rw [if_pos hne] at hp
        simp only [Option.mem_toList, Option.mem_def] at hp
        exact guardAppend_sound snap "horizontalpodautoscalers" (Val.str hn) p hp
      · rw [if_neg hne] at hp
        cases hp

/-- Claim C5: everything `process_workload` puts into the closure, apart from
the workload self-reference, is a kind/name pair present in the snapshot —
every append in the source is guarded by a
`resource_name in self.all_resources.get(kind, {})` check. -/
theorem c5_closure_subset_snapshot (ns workload_type workload_name : String)
    (workload_obj : Val) (snap : Snap) (res : List (String × String))
    (h : process_workload ns workload_type workload_name workload_obj snap = some res) :
    ∀ p ∈ res, p = (workload_type, workload_name) ∨
      hasKey (snapGet snap p.1) p.2 = true := by
  unfold process_workload at h
  simp only [Option.bind_eq_bind, Option.bind_eq_some, Option.pure_def,
    Option.some.injEq] at h
  obtain ⟨referenced, _, rbacSection, hrbac, ms, _, ir, _, hpaOpt, _, nps, _, hres⟩ := h
  subst hres
  intro p hp
  simp only [List.append_assoc, List.mem_append, List.mem_singleton] at hp
  rcases hp with hp | hp | hp | hp | hp | hp | hp
  · exact Or.inl hp
  · obtain ⟨c, _, hpc⟩ := List.mem_flatMap.mp hp
    obtain ⟨v, _, hg⟩ := List.mem_filterMap.mp hpc
    exact Or.inr (guardAppend_sound snap c.1 v p hg)
  · refine Or.inr ?_
    have := foldOpt_inv (P := fun acc => ∀ q ∈ acc, hasKey (snapGet snap q.1) q.2 = true)
      (fun b a b2 hb hstep => saStep_sound ns snap b b2 a hstep hb) hrbac
      (by intro q hq; cases hq)
    exact this p hp
  · obtain ⟨s, _, hg⟩ := List.mem_filterMap.mp hp
    exact Or.inr (guardAppend_sound snap "services" (Val.str s) p hg)
  · obtain ⟨q, _, hg⟩ := List.mem_filterMap.mp hp
    exact Or.inr (guardAppend_sound snap q.1 (Val.str q.2) p hg)
  · exact Or.inr (hpaSectionOf_sound snap hpaOpt p hp)
  · obtain ⟨s, _, hg⟩ := List.mem_filterMap.mp hp
    exact Or.inr (guardAppend_sound snap "networkpolicies" (Val.str s) p hg)

/-- A workload and snapshot exercising C5: a Deployment referencing a
ConfigMap that is present in the snapshot, and a matching Service. -/
def c5dep : Val :=
  Val.obj [("metadata", Val.obj [("name", Val.str "web")]),
    ("spec", Val.obj [
      ("selector", Val.obj [("matchLabels", Val.obj [("app", Val.str "web")])]),
      ("template", Val.obj [
        ("metadata", Val.obj [("labels", Val.obj [("app", Val.str "web")])]),
        ("spec", Val.obj [
          ("volumes", Val.list [Val.obj [("configMap", Val.obj [("name", Val.str "cm1")])]]),
          ("containers", Val.list [])])])])]

def c5snap : Snap :=
  [("configmaps", [("cm1", Val.obj [("data", Val.obj [])])]),
   ("services", [("s1", Val.obj [("spec", Val.obj
      [("selector", Val.obj [("app", Val.str "web")])])])])]

/-- Witness for C5 at a concrete run: the appended ConfigMap reference is a
snapshot entry. -/
theorem c5_subset_witness :
    process_workload "ns" "deployments" "web" c5dep c5snap =
      some [("deployments", "web"), ("configmaps", "cm1"), ("services", "s1")] ∧
    (("configmaps", "cm1") = ("deployments", "web") ∨
      hasKey (snapGet c5snap "configmaps") "cm1" = true) :=
  ⟨rfl, c5_closure_subset_snapshot "ns" "deployments" "web" c5dep c5snap
    [("deployments", "web"), ("configmaps", "cm1"), ("services", "s1")] rfl
    ("configmaps", "cm1") (by simp)⟩

/- ---------------------------------------------------------------------------
C4: how often an Ingress is appended.
--------------------------------------------------------------------------- -/

/-- The number of rules of one Ingress object that contain at least one path
whose backend service is in the set — exactly the number of times the source
appends this Ingress (the `break` only stops the inner paths loop). -/
def ingressMatchingRuleCount (service_names : List String) (ing_obj : Val) :
    Option Nat := do
  let spec ← pyGet ing_obj "spec" (Val.obj [])
  let rules ← pyGet spec "rules" (Val.list [])
  let ruleList ← pyElems rules
  let ms ← mapOpt (ruleMatches service_names) ruleList
  pure (ms.count true)

theorem ingRuleFold_chars (sn : List String) (nm : String) :
    ∀ (ruleList : List Val) (acc out : List (String × String)),
      foldOpt (ingRuleStep sn nm) ruleList acc = some out →
      ∃ ms, mapOpt (ruleMatches sn) ruleList = some ms ∧
        out = acc ++ List.replicate (ms.count true) ("ingresses", nm) := by
  intro ruleList
  induction ruleList with
  | nil =>
      intro acc out h
      rw [foldOpt_nil] at h
      injection h with h
      subst h
      exact ⟨[], rfl, by simp⟩
  | cons r t ih =>
      intro acc out h
      rw [foldOpt_cons] at h
      simp only [Option.bind_eq_some] at h
      obtain ⟨mid, hmid, hrest⟩ := h
      unfold ingRuleStep at hmid
      simp only [Option.bind_eq_bind, Option.bind_eq_some, Option.pure_def,
        Option.some.injEq] at hmid
      obtain ⟨m, hm, hmid⟩ := hmid
      cases m with
      | true =>
          rw [if_pos rfl] at hmid
          injection hmid with hmid
          subst hmid
          obtain ⟨ms, hms, hout⟩ := ih (acc ++ [("ingresses", nm)]) out hrest
          refine ⟨true :: ms, ?_, ?_⟩
          · rw [mapOpt_cons, hm]
            simp [hms]
          · rw [hout]
            simp [List.count_cons, List.replicate_succ, List.append_assoc]
      | false =>
          rw [if_neg (by simp)] at hmid
          injection hmid with hmid
          subst hmid
          obtain ⟨ms, hms, hout⟩ := ih acc out hrest
          refine ⟨false :: ms, ?_, ?_⟩
          · rw [mapOpt_cons, hm]
            simp [hms]
          · rw [hout]
            simp [List.count_cons]

theorem ingStep_chars (sn : List String) (acc out : List (String × String))
    (e : String × Val) (h : ingStep sn acc e = some out) :
    ∃ c, ingressMatchingRuleCount sn e.2 = some c ∧
      out = acc ++ List.replicate c ("ingresses", e.1) := by
  unfold ingStep at h
  simp only [Option.bind_eq_bind, Option.bind_eq_some] at h
  obtain ⟨spec, hspec, rules, hrules, ruleList, hrl, hfold⟩ := h
  obtain ⟨ms, hms, hout⟩ := ingRuleFold_chars sn e.1 ruleList acc out hfold
  refine ⟨ms.count true, ?_, hout⟩
  unfold ingressMatchingRuleCount
  rw [hspec]
  simp only [Option.bind_eq_bind, Option.some_bind]
  rw [hrules]
  simp only [Option.some_bind]
  rw [hrl]
  simp only [Option.some_bind]
  rw [hms]
  simp only [Option.some_bind]
  rfl

theorem ingFold_count_of_not_mem (sn : List String) (n : String) :
    ∀ (ings : Entries) (acc out : List (String × String)),
      foldOpt (ingStep sn) ings acc = some out →
      (∀ e ∈ ings, e.1 ≠ n) →
      out.count ("ingresses", n) = acc.count ("ingresses", n) := by
  intro ings
  induction ings with
  | nil =>
      intro acc out h _
      rw [foldOpt_nil] at h
      injection h with h
      subst h
      rfl
  | cons e t ih =>
      intro acc out h hne
      rw [foldOpt_cons] at h
      simp only [Option.bind_eq_some] at h
      obtain ⟨mid, hmid, hrest⟩ := h
      obtain ⟨c, _, hmid2⟩ := ingStep_chars sn acc mid e hmid
      subst hmid2
      rw [ih _ _ hrest (fun x hx => hne x (by simp [hx]))]
      have he1 : e.1 ≠ n := hne e (by simp)
      simp [List.count_append, List.count_replicate, he1]

theorem ingFold_count_of_mem (sn : List String) :
    ∀ (ings : Entries) (acc out : List (String × String)) (n : String) (obj : Val),
      foldOpt (ingStep sn) ings acc = some out →
      (n, obj) ∈ ings → (ings.map Prod.fst).Nodup →
      ∃ c, ingressMatchingRuleCount sn obj = some c ∧
        out.count ("ingresses", n) = acc.count ("ingresses", n) + c := by
  intro ings
  induction ings with
  | nil => intro acc out n obj _ hmem _; cases hmem
  | cons e t ih =>
      intro acc out n obj h hmem hnd
      rw [foldOpt_cons] at h
      simp only [Option.bind_eq_some] at h
      obtain ⟨mid, hmid, hrest⟩ := h
      simp only [List.map_cons, List.nodup_cons] at hnd
      cases hmem with
      | head =>
          obtain ⟨c, hc, hmid2⟩ := ingStep_chars sn acc mid (n, obj) hmid
          subst hmid2
          refine ⟨c, hc, ?_⟩
          have htail : ∀ x ∈ t, x.1 ≠ n := by
            intro x hx hxn
            have hn : n ∈ List.map Prod.fst t := by
              rw [← hxn]
              exact List.mem_map_of_mem Prod.fst hx
            exact hnd.1 hn
          rw [ingFold_count_of_not_mem sn n t _ out hrest htail]
          simp [List.count_append, List.count_replicate]
      | tail _ hmem =>
          obtain ⟨c0, _, hmid2⟩ := ingStep_chars sn acc mid e hmid
          subst hmid2
          have he1 : e.1 ≠ n := by
            intro hx
            have hn : e.1 ∈ List.map Prod.fst t := by
              rw [hx]
              exact List.mem_map_of_mem Prod.fst hmem
            exact hnd.1 hn
          obtain ⟨c, hc, hcount⟩ := ih _ out n obj hrest hmem hnd.2
          refine ⟨c, hc, ?_⟩
          rw [hcount]
          simp [List.count_append, List.count_replicate, he1]

theorem routeFold_count_ing (sn : List String) (n : String) :
    ∀ (routes : Entries) (acc out : List (String × String)),
      foldOpt (routeStep sn) routes acc = some out →
      out.count ("ingresses", n) = acc.count ("ingresses", n) := by
  intro routes
  induction routes with
  | nil =>
      intro acc out h
      rw [foldOpt_nil] at h
      injection h with h
      subst h
      rfl
  | cons e t ih =>
      intro acc out h
      rw [foldOpt_cons] at h
      simp only [Option.bind_eq_some] at h
      obtain ⟨mid, hmid, hrest⟩ := h
      unfold routeStep at hmid
      simp only [Option.bind_eq_bind, Option.bind_eq_some, Option.pure_def,
        Option.some.injEq] at hmid
      obtain ⟨spec, _, toObj, _, rsv, _, hmid⟩ := hmid
      split at hmid <;>
        (injection hmid with hmid; subst hmid; rw [ih _ _ hrest]; try simp [List.count_append])

/-- The ingress of the C4 counterexample: two rules, each with one path whose
backend targets the service `svc`. -/
def twoRuleIngress : Val :=
  Val.obj [("spec", Val.obj [("rules", Val.list [
    Val.obj [("http", Val.obj [("paths", Val.list [Val.obj [("backend",
      Val.obj [("service", Val.obj [("name", Val.str "svc")])])]])])],
    Val.obj [("http", Val.obj [("paths", Val.list [Val.obj [("backend",
      Val.obj [("service", Val.obj [("name", Val.str "svc")])])]])])]])])]

def c4snap : Snap := [("ingresses", [("ing1", twoRuleIngress)])]

/-- Claim C4 as stated is false: an Ingress whose matching paths live under
two distinct rules is appended once per rule — here twice.  The `break` exits
only the inner paths loop, not the rules loop. -/
theorem c4_ingress_two_rules_twice :
    find_matching_ingresses_and_routes ["svc"] c4snap =
      some [("ingresses", "ing1"), ("ingresses", "ing1")] ∧
    ¬ (List.count ("ingresses", "ing1")
        [("ingresses", "ing1"), ("ingresses", "ing1")] ≤ 1) :=
  ⟨rfl, by decide⟩

/-- Claim C4 amended: an Ingress is included at most once per rule — in every
successful run the number of occurrences of an Ingress in the result equals
the number of its rules containing at least one matching path (so several
matching paths within one rule still contribute a single occurrence, while
matching paths under k distinct rules contribute k occurrences). -/
theorem c4_ingress_once_per_rule (sn : List String) (snap : Snap)
    (res : List (String × String))
    (h : find_matching_ingresses_and_routes sn snap = some res)
    (hnd : ((snapGet snap "ingresses").map Prod.fst).Nodup) :
    ∀ n obj, (n, obj) ∈ snapGet snap "ingresses" →
      ∃ c, ingressMatchingRuleCount sn obj = some c ∧
        res.count ("ingresses", n) = c := by
  unfold find_matching_ingresses_and_routes at h
  simp only [Option.bind_eq_bind, Option.bind_eq_some] at h
  obtain ⟨withIngs, hings, hroutes⟩ := h
  intro n obj hmem
  obtain ⟨c, hc, hcount⟩ :=
    ingFold_count_of_mem sn (snapGet snap "ingresses") [] withIngs n obj hings hmem hnd
  refine ⟨c, hc, ?_⟩
  rw [routeFold_count_ing sn n (snapGet snap "routes") withIngs res hroutes, hcount]
  simp

/-- Witness for the amended C4 on the two-rule ingress: the count equals the
number of matching rules, namely 2. -/
theorem c4_once_per_rule_witness :
    ∃ c, ingressMatchingRuleCount ["svc"] twoRuleIngress = some c ∧
      (List.count ("ingresses", "ing1")
        [("ingresses", "ing1"), ("ingresses", "ing1")]) = c :=
  c4_ingress_once_per_rule ["svc"] c4snap
    [("ingresses", "ing1"), ("ingresses", "ing1")] rfl (by decide)
    "ing1" twoRuleIngress (by simp [c4snap, snapGet])

/- ---------------------------------------------------------------------------
C3: duplicate freedom inside the RBAC result.
--------------------------------------------------------------------------- -/

theorem append_singleton_nodup {α} [DecidableEq α] {l : List α} {v : α}
    (h : l.Nodup) (hv : v ∉ l) : (l ++ [v]).Nodup := by
  simp [List.nodup_append, h, hv]

/-- The membership-guarded role/clusterrole adds of a RoleBinding `roleRef`
preserve duplicate-freedom of both lists. -/
theorem roleBindingRoleRef_nodup (snap : Snap) (rb_obj : Val) (acc acc2 : Rbac)
    (h : roleBindingRoleRef snap rb_obj acc = some acc2)
    (hacc : acc.roles.Nodup ∧ acc.clusterroles.Nodup) :
    acc2.roles.Nodup ∧ acc2.clusterroles.Nodup := by
  unfold roleBindingRoleRef at h
  simp only [Option.bind_eq_bind, Option.bind_eq_some] at h
  obtain ⟨role_ref, _, kd, _, h⟩ := h
  split at h
  · simp only [Option.bind_eq_bind, Option.bind_eq_some] at h
    obtain ⟨rn, _, h⟩ := h
    split at h
    · split at h
      · simp only [Option.pure_def, Option.some.injEq] at h
        subst h
        exact hacc
      · simp only [Option.pure_def, Option.some.injEq] at h
        subst h
        exact ⟨append_singleton_nodup hacc.1 (by assumption), hacc.2⟩
    · simp only [Option.pure_def, Option.some.injEq] at h
      subst h
      exact hacc
  · split at h
    · simp only [Option.bind_eq_bind, Option.bind_eq_some] at h
      obtain ⟨crn, _, h⟩ := h
      split at h
      · simp only [Option.pure_def, Option.some.injEq] at h
        subst h
        rename_i hguard
        exact ⟨hacc.1, append_singleton_nodup hacc.2 hguard.2⟩
      · simp only [Option.pure_def, Option.some.injEq] at h
        subst h
        exact hacc
    · simp only [Option.pure_def, Option.some.injEq] at h
      subst h
      exact hacc

theorem clusterRoleBindingRoleRef_nodup (crb_obj : Val) (acc acc2 : Rbac)
    (h : clusterRoleBindingRoleRef crb_obj acc = some acc2)
    (hacc : acc.roles.Nodup ∧ acc.clusterroles.Nodup) :
    acc2.roles.Nodup ∧ acc2.clusterroles.Nodup := by
  unfold clusterRoleBindingRoleRef at h
  simp only [Option.bind_eq_bind, Option.bind_eq_some] at h
  obtain ⟨role_ref, _, kd, _, h⟩ := h
  split at h
  · simp only [Option.bind_eq_bind, Option.bind_eq_some] at h
    obtain ⟨crn, _, h⟩ := h
    split at h
    · simp only [Option.pure_def, Option.some.injEq] at h
      subst h
      rename_i hguard
      exact ⟨hacc.1, append_singleton_nodup hacc.2 hguard.2⟩
    · simp only [Option.pure_def, Option.some.injEq] at h
      subst h
      exact hacc
  · simp only [Option.pure_def, Option.some.injEq] at h
    subst h
    exact hacc

theorem processRoleBinding_nodup (ns : String) (sa : Val) (snap : Snap) (acc acc2 : Rbac)
    (rb : String × Val) (h : processRoleBinding ns sa snap acc rb = some acc2)
    (hacc : acc.roles.Nodup ∧ acc.clusterroles.Nodup) :
    acc2.roles.Nodup ∧ acc2.clusterroles.Nodup := by
  unfold processRoleBinding at h
  simp only [Option.bind_eq_bind, Option.bind_eq_some] at h
  obtain ⟨subjects, _, subjList, _, hfold⟩ := h
  refine foldOpt_inv (P := fun b => b.roles.Nodup ∧ b.clusterroles.Nodup) ?_ hfold hacc
  intro b a b2 hb hstep
  unfold processRoleBindingSubject at hstep
  simp only [Option.bind_eq_bind, Option.bind_eq_some] at hstep
  obtain ⟨m, _, hstep⟩ := hstep
  split at hstep
  · exact roleBindingRoleRef_nodup snap rb.2
      { b with rolebindings := b.rolebindings ++ [rb.1] } b2 hstep hb
  · simp only [Option.pure_def, Option.some.injEq] at hstep
    subst hstep
    exact hb

theorem processClusterRoleBinding_nodup (ns : String) (sa : Val) (acc acc2 : Rbac)
    (crb : String × Val) (h : processClusterRoleBinding ns sa acc crb = some acc2)
    (hacc : acc.roles.Nodup ∧ acc.clusterroles.Nodup) :
    acc2.roles.Nodup ∧ acc2.clusterroles.Nodup := by
  unfold processClusterRoleBinding at h
  simp only [Option.bind_eq_bind, Option.bind_eq_some] at h
  obtain ⟨subjects, _, subjList, _, hfold⟩ := h
  refine foldOpt_inv (P := fun b => b.roles.Nodup ∧ b.clusterroles.Nodup) ?_ hfold hacc
  intro b a b2 hb hstep
  simp only [Option.bind_eq_bind, Option.bind_eq_some] at hstep
  obtain ⟨m, _, hstep⟩ := hstep
  split at hstep
  · exact clusterRoleBindingRoleRef_nodup crb.2
      { b with clusterrolebindings := b.clusterrolebindings ++ [crb.1] } b2 hstep hb
  · simp only [Option.pure_def, Option.some.injEq] at hstep
    subst hstep
    exact hb

/-- A RoleBinding whose subject list names the same ServiceAccount twice. -/
def dupSubjectBinding : Val :=
  Val.obj [
    ("subjects", Val.list [
      Val.obj [("kind", Val.str "ServiceAccount"), ("name", Val.str "svc-a")],
      Val.obj [("kind", Val.str "ServiceAccount"), ("name", Val.str "svc-a")]]),
    ("roleRef", Val.obj [("kind", Val.str "Role"), ("name", Val.str "role1")])]

def c3snap : Snap := [("rolebindings", [("rb1", dupSubjectBinding)])]

/-- Claim C3 as stated is false: the binding name is appended once per
matching subject with no deduplication, so a RoleBinding whose subject list
names the ServiceAccount twice appears twice in the resolver's result (and,
being guarded only by snapshot presence, twice in the workload closure). -/
theorem c3_duplicate_subject_duplicates_binding :
    find_rbac_for_serviceaccount "myns" (Val.str "svc-a") c3snap =
      some ⟨[], ["rb1", "rb1"], [], []⟩ ∧
    ¬ (["rb1", "rb1"] : List String).Nodup :=
  ⟨rfl, by decide⟩

/-- Claim C3 amended: the roles and clusterroles categories are deduplicated —
no Role or ClusterRole appears twice even when reachable via several bindings
— while each RoleBinding/ClusterRoleBinding is appended once per matching
subject and may therefore repeat. -/
theorem c3_roles_clusterroles_nodup (ns : String) (sa : Val) (snap : Snap) (r : Rbac)
    (h : find_rbac_for_serviceaccount ns sa snap = some r) :
    r.roles.Nodup ∧ r.clusterroles.Nodup := by
  unfold find_rbac_for_serviceaccount at h
  simp only [Option.bind_eq_bind, Option.bind_eq_some] at h
  obtain ⟨acc1, h1, h2⟩ := h
  have hmid := foldOpt_inv (P := fun b : Rbac => b.roles.Nodup ∧ b.clusterroles.Nodup)
    (fun b a b2 hb hstep => processRoleBinding_nodup ns sa snap b b2 a hstep hb)
    h1 ⟨List.nodup_nil, List.nodup_nil⟩
  exact foldOpt_inv (P := fun b : Rbac => b.roles.Nodup ∧ b.clusterroles.Nodup)
    (fun b a b2 hb hstep => processClusterRoleBinding_nodup ns sa b b2 a hstep hb)
    h2 hmid

/-- A snapshot where the same ClusterRole is reachable through a RoleBinding
and a ClusterRoleBinding, for the C3 witness. -/
def c3snap2 : Snap :=
  [("rolebindings", [("rb1", Val.obj [
      ("subjects", Val.list [
        Val.obj [("kind", Val.str "ServiceAccount"), ("name", Val.str "svc-a")]]),
      ("roleRef", Val.obj [("kind", Val.str "ClusterRole"), ("name", Val.str "cr1")])])]),
   ("clusterrolebindings", [("crb1", Val.obj [
      ("subjects", Val.list [
        Val.obj [("kind", Val.str "ServiceAccount"), ("name", Val.str "svc-a")]]),
      ("roleRef", Val.obj [("kind", Val.str "ClusterRole"), ("name", Val.str "cr1")])])])]

/-- Witness for the amended C3: a ClusterRole referenced by both a RoleBinding
and a ClusterRoleBinding appears once, and both deduplicated lists are
duplicate-free. -/
theorem c3_nodup_witness :
    find_rbac_for_serviceaccount "myns" (Val.str "svc-a") c3snap2 =
      some ⟨[], ["rb1"], [Val.str "cr1"], ["crb1"]⟩ ∧
    (([] : List Val).Nodup ∧ ([Val.str "cr1"] : List Val).Nodup) :=
  ⟨rfl, c3_roles_clusterroles_nodup "myns" (Val.str "svc-a") c3snap2
    ⟨[], ["rb1"], [Val.str "cr1"], ["crb1"]⟩ rfl⟩

/- ---------------------------------------------------------------------------
C7: which Services match a workload.
--------------------------------------------------------------------------- -/

/-- `svc_obj.get('spec', {}).get('selector', {})`. -/
def serviceSelector (svc_obj : Val) : Option Val := do
  let spec ← pyGet svc_obj "spec" (Val.obj [])
  pyGet spec "selector" (Val.obj [])

/-- The condition under which the source includes a Service: its selector is
truthy and every pair agrees with `workload_labels.get(k)` — where a missing
key yields `None`, so a pair with value `None` matches an absent key too. -/
def svcMatchCond (L : Val) (obj : Val) : Prop :=
  ∃ sel, serviceSelector obj = some sel ∧ truthy sel = true ∧
    ∃ items, pyItems sel = some items ∧
      ∀ kv ∈ items, pyGet L kv.1 Val.null = some kv.2

theorem allSelectorSubset_true_iff (L : Val) :
    ∀ (items : Entries) (b : Bool), allSelectorSubset L items = some b →
      (b = true ↔ ∀ kv ∈ items, pyGet L kv.1 Val.null = some kv.2) := by
  intro items
  induction items with
  | nil =>
      intro b h
      simp only [allSelectorSubset, Option.some.injEq] at h
      subst h
      simp
  | cons kv t ih =>
      intro b h
      obtain ⟨k, v⟩ := kv
      simp only [allSelectorSubset, Option.bind_eq_bind, Option.bind_eq_some] at h
      obtain ⟨x, hx, h⟩ := h
      by_cases hxv : x = v
      · rw [if_pos hxv] at h
        subst hxv
        rw [ih b h]
        constructor
        · intro hall
          intro kv hkv
          rcases List.mem_cons.mp hkv with hkv | hkv
          · subst hkv; exact hx
          · exact hall kv hkv
        · intro hall kv hkv
          exact hall kv (List.mem_cons_of_mem _ hkv)
      · rw [if_neg hxv] at h
        simp only [Option.pure_def, Option.some.injEq] at h
        subst h
        apply iff_of_false (by simp)
        intro hall
        have := hall (k, v) (List.mem_cons_self _ _)
        rw [hx] at this
        injection this with this
        exact hxv this

theorem svcStep_chars (L : Val) (acc out : List String) (e : String × Val)
    (h : svcStep L acc e = some out) :
    (svcMatchCond L e.2 ∧ out = acc ++ [e.1]) ∨ (¬ svcMatchCond L e.2 ∧ out = acc) := by
  unfold svcStep at h
  simp only [Option.bind_eq_bind, Option.bind_eq_some] at h
  obtain ⟨spec, hspec, sel, hsel, h⟩ := h
  have hss : serviceSelector e.2 = some sel := by
    unfold serviceSelector
    rw [hspec]
    simpa using hsel
  by_cases ht : truthy sel = true
  · rw [if_pos ht] at h
    simp only [Option.bind_eq_bind, Option.bind_eq_some] at h
    obtain ⟨items, hitems, ok, hok, h⟩ := h
    cases ok with
    | true =>
        rw [if_pos rfl] at h
        simp only [Option.pure_def, Option.some.injEq] at h
        subst h
        exact Or.inl ⟨⟨sel, hss, ht, items, hitems,
          (allSelectorSubset_true_iff L items true hok).mp rfl⟩, rfl⟩
    | false =>
        rw [if_neg (by simp)] at h
        simp only [Option.pure_def, Option.some.injEq] at h
        subst h
        refine Or.inr ⟨?_, rfl⟩
        rintro ⟨sel2, hss2, _, items2, hitems2, hall⟩
        rw [hss] at hss2
        injection hss2 with hss2
        subst hss2
        rw [hitems] at hitems2
        injection hitems2 with hitems2
        subst hitems2
        have := (allSelectorSubset_true_iff L items false hok).mpr hall
        cases this
  · rw [if_neg ht] at h
    simp only [Option.pure_def, Option.some.injEq] at h
    subst h
    refine Or.inr ⟨?_, rfl⟩
    rintro ⟨sel2, hss2, ht2, _⟩
    rw [hss] at hss2
    injection hss2 with hss2
    subst hss2
    exact ht ht2

theorem svcFold_mem (L : Val) :
    ∀ (svcs : Entries) (acc out : List String),
      foldOpt (svcStep L) svcs acc = some out →
      ∀ n : String, n ∈ out ↔
        (n ∈ acc ∨ ∃ obj, (n, obj) ∈ svcs ∧ svcMatchCond L obj) := by
  intro svcs
  induction svcs with
  | nil =>
      intro acc out h n
      rw [foldOpt_nil] at h
      injection h with h
      subst h
      simp
  | cons e t ih =>
      intro acc out h n
      rw [foldOpt_cons] at h
      simp only [Option.bind_eq_some] at h
      obtain ⟨mid, hmid, hrest⟩ := h
      rcases svcStep_chars L acc mid e hmid with ⟨hcond, hmid2⟩ | ⟨hncond, hmid2⟩
      · subst hmid2
        rw [ih _ _ hrest n]
        constructor
        · rintro (hn | ⟨obj, hobj, hc⟩)
          · rcases List.mem_append.mp hn with hn | hn
            · exact Or.inl hn
            · refine Or.inr ⟨e.2, ?_, ?_⟩
              · have : n = e.1 := by simpa using hn
                rw [this]
                exact List.mem_cons_self _ _
              · exact hcond
          · exact Or.inr ⟨obj, List.mem_cons_of_mem _ hobj, hc⟩
        · rintro (hn | ⟨obj, hobj, hc⟩)
          · exact Or.inl (List.mem_append_left _ hn)
          · rcases List.mem_cons.mp hobj with hobj | hobj
            · have hne : n = e.1 := congrArg Prod.fst hobj
              exact Or.inl (by simp [hne])
            · exact Or.inr ⟨obj, hobj, hc⟩
      · subst hmid2
        rw [ih _ _ hrest n]
        constructor
        · rintro (hn | ⟨obj, hobj, hc⟩)
          · exact Or.inl hn
          · exact Or.inr ⟨obj, List.mem_cons_of_mem _ hobj, hc⟩
        · rintro (hn | ⟨obj, hobj, hc⟩)
          · exact Or.inl hn
          · rcases List.mem_cons.mp hobj with hobj | hobj
            · exfalso
              have : obj = e.2 := congrArg Prod.snd hobj
              exact hncond (this ▸ hc)
            · exact Or.inr ⟨obj, hobj, hc⟩

/-- Two entries with the same key in a key-nodup association list coincide. -/
theorem nodup_keys_eq {β} {l : List (String × β)} (h : (l.map Prod.fst).Nodup)
    {n : String} {a b : β} (ha : (n, a) ∈ l) (hb : (n, b) ∈ l) : a = b := by
  induction l with
  | nil => cases ha
  | cons e t ih =>
      simp only [List.map_cons, List.nodup_cons] at h
      rcases List.mem_cons.mp ha with ha2 | ha2 <;>
        rcases List.mem_cons.mp hb with hb2 | hb2
      · rw [← ha2] at hb2
        exact (congrArg Prod.snd hb2.symm)
      · exfalso
        apply h.1
        have hne : n = e.1 := congrArg Prod.fst ha2
        rw [← hne]
        exact List.mem_map_of_mem Prod.fst hb2
      · exfalso
        apply h.1
        have hne : n = e.1 := congrArg Prod.fst hb2
        rw [← hne]
        exact List.mem_map_of_mem Prod.fst ha2
      · exact ih h.2 ha2 hb2

/-- The workload of the C7 counterexample: non-empty pod labels lacking the
key `a`. -/
def c7wl : Val :=
  Val.obj [("spec", Val.obj [("selector", Val.obj [("matchLabels",
    Val.obj [("b", Val.str "x")])])])]

/-- A Service whose selector carries the single pair `a: null` (in YAML, a
selector entry written `a:` with no value). -/
def c7svc : Val :=
  Val.obj [("spec", Val.obj [("selector", Val.obj [("a", Val.null)])])]

def c7snap : Snap := [("services", [("svc-null", c7svc)])]

/-- Claim C7 as stated is false: the Service is matched although its selector
pair `("a", null)` is not present in the workload's matchLabels at all —
`workload_labels.get(k)` returns `None` for the absent key and `None == None`
holds, so the subset condition of the claim is violated while the code still
includes the Service. -/
theorem c7_null_selector_counterexample :
    find_matching_services c7wl c7snap = some ["svc-null"] ∧
    serviceSelector c7svc = some (Val.obj [("a", Val.null)]) ∧
    chainGet c7wl ["spec", "selector", "matchLabels"] =
      some (Val.obj [("b", Val.str "x")]) ∧
    lookupKey [("b", Val.str "x")] "a" = none ∧
    truthy (Val.obj [("b", Val.str "x")]) = true :=
  ⟨rfl, rfl, rfl, rfl, rfl⟩

/-- Claim C7 amended: in a successful run, if the workload's
`spec.selector.matchLabels` is falsy the result is empty, and otherwise a
snapshot Service is matched iff its `spec.selector` is truthy and every
key/value pair `(k, v)` of it satisfies `workload_labels.get(k) == v` — where
a missing key yields `None`, so a pair whose value is `null` also matches an
absent key; for pairs with non-null values this is exactly "present with
equal value", and any key with a differing value prevents the match. -/
theorem c7_service_match_characterization (workload_obj : Val) (snap : Snap)
    (res : List String) (L : Val)
    (h : find_matching_services workload_obj snap = some res)
    (hL : chainGet workload_obj ["spec", "selector", "matchLabels"] = some L) :
    (truthy L = false → res = []) ∧
    (truthy L = true →
      ((snapGet snap "services").map Prod.fst).Nodup →
      ∀ n obj, (n, obj) ∈ snapGet snap "services" →
        (n ∈ res ↔ svcMatchCond L obj)) := by
  unfold find_matching_services at h
  rw [hL] at h
  simp only [Option.bind_eq_bind, Option.some_bind] at h
  constructor
  · intro hf
    rw [if_pos (by simp [hf])] at h
    simp only [Option.pure_def, Option.some.injEq] at h
    exact h.symm
  · intro ht hnd n obj hmem
    rw [if_neg (by simp [ht])] at h
    rw [svcFold_mem L (snapGet snap "services") [] res h n]
    constructor
    · rintro (hn | ⟨obj2, hobj2, hc⟩)
      · cases hn
      · rwa [nodup_keys_eq hnd hmem hobj2]
    · intro hc
      exact Or.inr ⟨obj, hmem, hc⟩

/-- Witness for the amended C7: with labels `{app: web, tier: db}`, a Service
selecting `{app: web}` is matched and a Service selecting `{app: api}` is
not. -/
theorem c7_characterization_witness :
    find_matching_services
      (Val.obj [("spec", Val.obj [("selector", Val.obj [("matchLabels",
        Val.obj [("app", Val.str "web"), ("tier", Val.str "db")])])])])
      [("services", [("s1", Val.obj [("spec", Val.obj [("selector",
        Val.obj [("app", Val.str "web")])])])])] = some ["s1"] ∧
    ("s1" ∈ ["s1"] ↔ svcMatchCond
      (Val.obj [("app", Val.str "web"), ("tier", Val.str "db")])
      (Val.obj [("spec", Val.obj [("selector", Val.obj [("app", Val.str "web")])])])) :=
  ⟨rfl, (c7_service_match_characterization
    (Val.obj [("spec", Val.obj [("selector", Val.obj [("matchLabels",
      Val.obj [("app", Val.str "web"), ("tier", Val.str "db")])])])])
    [("services", [("s1", Val.obj [("spec", Val.obj [("selector",
      Val.obj [("app", Val.str "web")])])])])]
    ["s1"] (Val.obj [("app", Val.str "web"), ("tier", Val.str "db")])
    rfl rfl).2 rfl (by simp [snapGet])
    "s1" (Val.obj [("spec", Val.obj [("selector", Val.obj [("app", Val.str "web")])])])
    (by simp [snapGet])⟩

/- ---------------------------------------------------------------------------
C8: characterization of the RBAC resolver.
--------------------------------------------------------------------------- -/

/-- `binding.get('subjects', [])` as a list. -/
def bindingSubjects (obj : Val) : Option (List Val) := do
  let subjects ← pyGet obj "subjects" (Val.list [])
  pyElems subjects

/-- `binding.get('roleRef', {}).get('kind')`. -/
def roleRefKind (obj : Val) : Option Val := do
  let role_ref ← pyGet obj "roleRef" (Val.obj [])
  pyGet role_ref "kind" Val.null

/-- `binding.get('roleRef', {}).get('name')`. -/
def roleRefName (obj : Val) : Option Val := do
  let role_ref ← pyGet obj "roleRef" (Val.obj [])
  pyGet role_ref "name" Val.null

/-- The claim's subject-matching condition, spelled on the subject's fields:
kind `ServiceAccount`, the requested name, and a namespace field equal to the
target namespace — with an omitted namespace field defaulting to the target
namespace. -/
def subjectMatchCond (ns : String) (sa : Val) (s : Val) : Prop :=
  ∃ es, s = Val.obj es ∧
    (lookupKey es "kind").getD Val.null = Val.str "ServiceAccount" ∧
    (lookupKey es "name").getD Val.null = sa ∧
    (lookupKey es "namespace").getD (Val.str ns) = Val.str ns

theorem subjectMatches_iff (ns : String) (sa : Val) (s : Val) (b : Bool)
    (h : subjectMatches ns sa s = some b) :
    (b = true ↔ subjectMatchCond ns sa s) := by
  cases s with
  | obj es =>
      unfold subjectMatches at h
      simp only [pyGet, Option.bind_eq_bind, Option.some_bind] at h
      by_cases h1 : (lookupKey es "kind").getD Val.null = Val.str "ServiceAccount"
      · rw [if_pos h1] at h
        by_cases h2 : (lookupKey es "name").getD Val.null = sa
        · rw [if_pos h2] at h
          simp only [Option.pure_def, Option.some.injEq] at h
          subst h
          constructor
          · intro hb
            refine ⟨es, rfl, h1, h2, ?_⟩
            simpa using hb
          · rintro ⟨es2, hes2, _, _, h3⟩
            injection hes2 with hes2
            subst hes2
            simpa using h3
        · rw [if_neg h2] at h
          simp only [Option.pure_def, Option.some.injEq] at h
          subst h
          apply iff_of_false (by simp)
          rintro ⟨es2, hes2, _, hname, _⟩
          injection hes2 with hes2
          subst hes2
          exact h2 hname
      · rw [if_neg h1] at h
        simp only [Option.pure_def, Option.some.injEq] at h
        subst h
        apply iff_of_false (by simp)
        rintro ⟨es2, hes2, hkind, _, _⟩
        injection hes2 with hes2
        subst hes2
        exact h1 hkind
  | null => simp [subjectMatches, pyGet] at h
  | bool b2 => simp [subjectMatches, pyGet] at h
  | int n => simp [subjectMatches, pyGet] at h
  | str s2 => simp [subjectMatches, pyGet] at h
  | list xs => simp [subjectMatches, pyGet] at h

/-- What one RoleBinding `roleRef` resolution does to the four lists: the two
binding lists are untouched and the two role lists only ever grow. -/
theorem roleBindingRoleRef_fields (snap : Snap) (rb_obj : Val) (acc acc2 : Rbac)
    (h : roleBindingRoleRef snap rb_obj acc = some acc2) :
    acc2.rolebindings = acc.rolebindings ∧
    acc2.clusterrolebindings = acc.clusterrolebindings ∧
    (∀ v ∈ acc.roles, v ∈ acc2.roles) ∧
    (∀ v ∈ acc.clusterroles, v ∈ acc2.clusterroles) := by
  unfold roleBindingRoleRef at h
  simp only [Option.bind_eq_bind, Option.bind_eq_some] at h
  obtain ⟨role_ref, _, kd, _, h⟩ := h
  split at h
  · simp only [Option.bind_eq_bind, Option.bind_eq_some] at h
    obtain ⟨rn, _, h⟩ := h
    split at h
    · split at h
      · simp only [Option.pure_def, Option.some.injEq] at h
        subst h
        exact ⟨rfl, rfl, fun v hv => hv, fun v hv => hv⟩
      · simp only [Option.pure_def, Option.some.injEq] at h
        subst h
        exact ⟨rfl, rfl, fun v hv => List.mem_append_left _ hv, fun v hv => hv⟩
    · simp only [Option.pure_def, Option.some.injEq] at h
      subst h
      exact ⟨rfl, rfl, fun v hv => hv, fun v hv => hv⟩
  · split at h
    · simp only [Option.bind_eq_bind, Option.bind_eq_some] at h
      obtain ⟨crn, _, h⟩ := h
      split at h
      · simp only [Option.pure_def, Option.some.injEq] at h
        subst h
        exact ⟨rfl, rfl, fun v hv => hv, fun v hv => List.mem_append_left _ hv⟩
      · simp only [Option.pure_def, Option.some.injEq] at h
        subst h
        exact ⟨rfl, rfl, fun v hv => hv, fun v hv => hv⟩
    · simp only [Option.pure_def, Option.some.injEq] at h
      subst h
      exact ⟨rfl, rfl, fun v hv => hv, fun v hv => hv⟩

/-- What one ClusterRoleBinding `roleRef` resolution does to the four lists. -/
theorem clusterRoleBindingRoleRef_fields (crb_obj : Val) (acc acc2 : Rbac)
    (h : clusterRoleBindingRoleRef crb_obj acc = some acc2) :
    acc2.roles = acc.roles ∧
    acc2.rolebindings = acc.rolebindings ∧
    acc2.clusterrolebindings = acc.clusterrolebindings ∧
    (∀ v ∈ acc.clusterroles, v ∈ acc2.clusterroles) := by
  unfold clusterRoleBindingRoleRef at h
  simp only [Option.bind_eq_bind, Option.bind_eq_some] at h
  obtain ⟨role_ref, _, kd, _, h⟩ := h
  split at h
  · simp only [Option.bind_eq_bind, Option.bind_eq_some] at h
    obtain ⟨crn, _, h⟩ := h
    split at h
    · simp only [Option.pure_def, Option.some.injEq] at h
      subst h
      exact ⟨rfl, rfl, rfl, fun v hv => List.mem_append_left _ hv⟩
    · simp only [Option.pure_def, Option.some.injEq] at h
      subst h
      exact ⟨rfl, rfl, rfl, fun v hv => hv⟩
  · simp only [Option.pure_def, Option.some.injEq] at h
    subst h
    exact ⟨rfl, rfl, rfl, fun v hv => hv⟩

/-- The subject loop of one RoleBinding appends the binding name once per
matching subject and leaves the ClusterRoleBinding list untouched. -/
theorem subjFoldRB_chars (ns : String) (sa : Val) (snap : Snap) (nm : String) (obj : Val) :
    ∀ (subjs : List Val) (acc out : Rbac),
      foldOpt (fun a s => processRoleBindingSubject ns sa snap nm obj a s) subjs acc =
        some out →
      ∃ ms, mapOpt (subjectMatches ns sa) subjs = some ms ∧
        out.rolebindings = acc.rolebindings ++ List.replicate (ms.count true) nm ∧
        out.clusterrolebindings = acc.clusterrolebindings := by
  intro subjs
  induction subjs with
  | nil =>
      intro acc out h
      rw [foldOpt_nil] at h
      injection h with h
      subst h
      exact ⟨[], rfl, by simp, rfl⟩
  | cons s t ih =>
      intro acc out h
      rw [foldOpt_cons] at h
      simp only [Option.bind_eq_some] at h
      obtain ⟨mid, hmid, hrest⟩ := h
      unfold processRoleBindingSubject at hmid
      simp only [Option.bind_eq_bind, Option.bind_eq_some] at hmid
      obtain ⟨m, hm, hmid⟩ := hmid
      obtain ⟨ms, hms, hout, hout2⟩ := ih mid out hrest
      cases m with
      | true =>
          rw [if_pos rfl] at hmid
          obtain ⟨hrb, hcrb, _, _⟩ := roleBindingRoleRef_fields snap obj _ mid hmid
          refine ⟨true :: ms, ?_, ?_, ?_⟩
          · rw [mapOpt_cons, hm]
            simp [hms]
          · rw [hout, hrb]
            simp [List.count_cons, List.replicate_succ, List.append_assoc]
          · rw [hout2, hcrb]
      | false =>
          rw [if_neg (by simp)] at hmid
          simp only [Option.pure_def, Option.some.injEq] at hmid
          subst hmid
          refine ⟨false :: ms, ?_, ?_, hout2⟩
          · rw [mapOpt_cons, hm]
            simp [hms]
          · rw [hout]
            simp [List.count_cons]

/-- One RoleBinding appends its name once per matching subject. -/
theorem processRoleBinding_chars (ns : String) (sa : Val) (snap : Snap)
    (acc acc2 : Rbac) (rb : String × Val)
    (h : processRoleBinding ns sa snap acc rb = some acc2) :
    ∃ subjs ms, bindingSubjects rb.2 = some subjs ∧
      mapOpt (subjectMatches ns sa) subjs = some ms ∧
      acc2.rolebindings = acc.rolebindings ++ List.replicate (ms.count true) rb.1 ∧
      acc2.clusterrolebindings = acc.clusterrolebindings := by
  unfold processRoleBinding at h
  simp only [Option.bind_eq_bind, Option.bind_eq_some] at h
  obtain ⟨subjects, hsub, subjList, hsl, hfold⟩ := h
  obtain ⟨ms, hms, hout, hout2⟩ := subjFoldRB_chars ns sa snap rb.1 rb.2 subjList acc acc2 hfold
  refine ⟨subjList, ms, ?_, hms, hout, hout2⟩
  unfold bindingSubjects
  rw [hsub]
  simpa using hsl

/-- The subject loop of one ClusterRoleBinding appends the binding name once
per matching subject and leaves the RoleBinding list untouched. -/
theorem subjFoldCRB_chars (ns : String) (sa : Val) (nm : String) (obj : Val) :
    ∀ (subjs : List Val) (acc out : Rbac),
      foldOpt (fun a s => do
          let m ← subjectMatches ns sa s
          if m then
            clusterRoleBindingRoleRef obj
              { a with clusterrolebindings := a.clusterrolebindings ++ [nm] }
          else pure a) subjs acc = some out →
      ∃ ms, mapOpt (subjectMatches ns sa) subjs = some ms ∧
        out.clusterrolebindings =
          acc.clusterrolebindings ++ List.replicate (ms.count true) nm ∧
        out.rolebindings = acc.rolebindings := by
  intro subjs
  induction subjs with
  | nil =>
      intro acc out h
      rw [foldOpt_nil] at h
      injection h with h
      subst h
      exact ⟨[], rfl, by simp, rfl⟩
  | cons s t ih =>
      intro acc out h
      rw [foldOpt_cons] at h
      simp only [Option.bind_eq_some] at h
      obtain ⟨mid, hmid, hrest⟩ := h
      simp only [Option.bind_eq_bind, Option.bind_eq_some] at hmid
      obtain ⟨m, hm, hmid⟩ := hmid
      obtain ⟨ms, hms, hout, hout2⟩ := ih mid out hrest
      cases m with
      | true =>
          rw [if_pos rfl] at hmid
          obtain ⟨_, hrb, hcrb, _⟩ := clusterRoleBindingRoleRef_fields obj _ mid hmid
          refine ⟨true :: ms, ?_, ?_, ?_⟩
          · rw [mapOpt_cons, hm]
            simp [hms]
          · rw [hout, hcrb]
            simp [List.count_cons, List.replicate_succ, List.append_assoc]
          · rw [hout2, hrb]
      | false =>
          rw [if_neg (by simp)] at hmid
          simp only [Option.pure_def, Option.some.injEq] at hmid
          subst hmid
          refine ⟨false :: ms, ?_, ?_, hout2⟩
          · rw [mapOpt_cons, hm]
            simp [hms]
          · rw [hout]
            simp [List.count_cons]

/-- One ClusterRoleBinding appends its name once per matching subject. -/
theorem processClusterRoleBinding_chars (ns : String) (sa : Val)
    (acc acc2 : Rbac) (crb : String × Val)
    (h : processClusterRoleBinding ns sa acc crb = some acc2) :
    ∃ subjs ms, bindingSubjects crb.2 = some subjs ∧
      mapOpt (subjectMatches ns sa) subjs = some ms ∧
      acc2.clusterrolebindings =
        acc.clusterrolebindings ++ List.replicate (ms.count true) crb.1 ∧
      acc2.rolebindings = acc.rolebindings := by
  unfold processClusterRoleBinding at h
  simp only [Option.bind_eq_bind, Option.bind_eq_some] at h
  obtain ⟨subjects, hsub, subjList, hsl, hfold⟩ := h
  obtain ⟨ms, hms, hout, hout2⟩ := subjFoldCRB_chars ns sa crb.1 crb.2 subjList acc acc2 hfold
  refine ⟨subjList, ms, ?_, hms, hout, hout2⟩
  unfold bindingSubjects
  rw [hsub]
  simpa using hsl

theorem mapOpt_mem_image {f : α → Option β} :
    ∀ {l : List α} {l2 : List β}, mapOpt f l = some l2 →
      ∀ a ∈ l, ∃ b ∈ l2, f a = some b := by
  intro l
  induction l with
  | nil => intro l2 _ a ha; cases ha
  | cons x t ih =>
      intro l2 h a ha
      rw [mapOpt_cons] at h
      simp only [Option.bind_eq_some, Option.some.injEq] at h
      obtain ⟨b0, hb0, bs, hbs, heq⟩ := h
      subst heq
      cases ha with
      | head => exact ⟨b0, by simp, hb0⟩
      | tail _ ha =>
          obtain ⟨b, hb, hfb⟩ := ih hbs a ha
          exact ⟨b, by simp [hb], hfb⟩

/-- A positive count of matches corresponds to a subject satisfying the
claim's matching condition. -/
theorem matchingSubject_iff_count (ns : String) (sa : Val) (subjs : List Val)
    (ms : List Bool) (hms : mapOpt (subjectMatches ns sa) subjs = some ms) :
    (0 < ms.count true ↔ ∃ s ∈ subjs, subjectMatchCond ns sa s) := by
  constructor
  · intro h
    have htrue : true ∈ ms := by
      by_contra hc
      rw [List.count_eq_zero.mpr hc] at h
      exact Nat.lt_irrefl 0 h
    obtain ⟨s, hs, hfs⟩ := mapOpt_mem hms true htrue
    exact ⟨s, hs, (subjectMatches_iff ns sa s true hfs).mp rfl⟩
  · rintro ⟨s, hs, hc⟩
    obtain ⟨b, hb, hfb⟩ := mapOpt_mem_image hms s hs
    have hbt : b = true := (subjectMatches_iff ns sa s b hfb).mpr hc
    subst hbt
    by_contra hzero
    have : ms.count true = 0 := Nat.eq_zero_of_not_pos hzero
    exact (List.count_eq_zero.mp this) hb

theorem rbFold_count_of_not_mem (ns : String) (sa : Val) (snap : Snap) (n : String) :
    ∀ (rbs : Entries) (acc out : Rbac),
      foldOpt (processRoleBinding ns sa snap) rbs acc = some out →
      (∀ e ∈ rbs, e.1 ≠ n) →
      out.rolebindings.count n = acc.rolebindings.count n := by
  intro rbs
  induction rbs with
  | nil =>
      intro acc out h _
      rw [foldOpt_nil] at h
      injection h with h
      subst h
      rfl
  | cons e t ih =>
      intro acc out h hne
      rw [foldOpt_cons] at h
      simp only [Option.bind_eq_some] at h
      obtain ⟨mid, hmid, hrest⟩ := h
      obtain ⟨_, _, _, _, hmid2, _⟩ := processRoleBinding_chars ns sa snap acc mid e hmid
      rw [ih _ _ hrest (fun x hx => hne x (by simp [hx]))]
      rw [hmid2]
      have he1 : e.1 ≠ n := hne e (by simp)
      simp [List.count_append, List.count_replicate, he1]

theorem rbFold_count_of_mem (ns : String) (sa : Val) (snap : Snap) :
    ∀ (rbs : Entries) (acc out : Rbac) (n : String) (obj : Val),
      foldOpt (processRoleBinding ns sa snap) rbs acc = some out →
      (n, obj) ∈ rbs → (rbs.map Prod.fst).Nodup →
      ∃ subjs ms, bindingSubjects obj = some subjs ∧
        mapOpt (subjectMatches ns sa) subjs = some ms ∧
        out.rolebindings.count n = acc.rolebindings.count n + ms.count true := by
  intro rbs
  induction rbs with
  | nil => intro acc out n obj _ hmem _; cases hmem
  | cons e t ih =>
      intro acc out n obj h hmem hnd
      rw [foldOpt_cons] at h
      simp only [Option.bind_eq_some] at h
      obtain ⟨mid, hmid, hrest⟩ := h
      simp only [List.map_cons, List.nodup_cons] at hnd
      cases hmem with
      | head =>
          obtain ⟨subjs, ms, hsub, hms, hmid2, _⟩ :=
            processRoleBinding_chars ns sa snap acc mid (n, obj) hmid
          refine ⟨subjs, ms, hsub, hms, ?_⟩
          have htail : ∀ x ∈ t, x.1 ≠ n := by
            intro x hx hxn
            have hn2 : n ∈ List.map Prod.fst t := by
              rw [← hxn]
              exact List.mem_map_of_mem Prod.fst hx
            exact hnd.1 hn2
          rw [rbFold_count_of_not_mem ns sa snap n t _ out hrest htail, hmid2]
          simp [List.count_append, List.count_replicate]
      | tail _ hmem =>
          obtain ⟨_, _, _, _, hmid2, _⟩ :=
            processRoleBinding_chars ns sa snap acc mid e hmid
          have he1 : e.1 ≠ n := by
            intro hx
            have hn2 : e.1 ∈ List.map Prod.fst t := by
              rw [hx]
              exact List.mem_map_of_mem Prod.fst hmem
            exact hnd.1 hn2
          obtain ⟨subjs, ms, hsub, hms, hcount⟩ := ih _ out n obj hrest hmem hnd.2
          refine ⟨subjs, ms, hsub, hms, ?_⟩
          rw [hcount, hmid2]
          simp [List.count_append, List.count_replicate, he1]

theorem crbFold_count_of_not_mem (ns : String) (sa : Val) (n : String) :
    ∀ (crbs : Entries) (acc out : Rbac),
      foldOpt (processClusterRoleBinding ns sa) crbs acc = some out →
      (∀ e ∈ crbs, e.1 ≠ n) →
      out.clusterrolebindings.count n = acc.clusterrolebindings.count n := by
  intro crbs
  induction crbs with
  | nil =>
      intro acc out h _
      rw [foldOpt_nil] at h
      injection h with h
      subst h
      rfl
  | cons e t ih =>
      intro acc out h hne
      rw [foldOpt_cons] at h
      simp only [Option.bind_eq_some] at h
      obtain ⟨mid, hmid, hrest⟩ := h
      obtain ⟨_, _, _, _, hmid2, _⟩ := processClusterRoleBinding_chars ns sa acc mid e hmid
      rw [ih _ _ hrest (fun x hx => hne x (by simp [hx]))]
      rw [hmid2]
      have he1 : e.1 ≠ n := hne e (by simp)
      simp [List.count_append, List.count_replicate, he1]

theorem crbFold_count_of_mem (ns : String) (sa : Val) :
    ∀ (crbs : Entries) (acc out : Rbac) (n : String) (obj : Val),
      foldOpt (processClusterRoleBinding ns sa) crbs acc = some out →
      (n, obj) ∈ crbs → (crbs.map Prod.fst).Nodup →
      ∃ subjs ms, bindingSubjects obj = some subjs ∧
        mapOpt (subjectMatches ns sa) subjs = some ms ∧
        out.clusterrolebindings.count n =
          acc.clusterrolebindings.count n + ms.count true := by
  intro crbs
  induction crbs with
  | nil => intro acc out n obj _ hmem _; cases hmem
  | cons e t ih =>
      intro acc out n obj h hmem hnd
      rw [foldOpt_cons] at h
      simp only [Option.bind_eq_some] at h
      obtain ⟨mid, hmid, hrest⟩ := h
      simp only [List.map_cons, List.nodup_cons] at hnd
      cases hmem with
      | head =>
          obtain ⟨subjs, ms, hsub, hms, hmid2, _⟩ :=
            processClusterRoleBinding_chars ns sa acc mid (n, obj) hmid
          refine ⟨subjs, ms, hsub, hms, ?_⟩
          have htail : ∀ x ∈ t, x.1 ≠ n := by
            intro x hx hxn
            have hn2 : n ∈ List.map Prod.fst t := by
              rw [← hxn]
              exact List.mem_map_of_mem Prod.fst hx
            exact hnd.1 hn2
          rw [crbFold_count_of_not_mem ns sa n t _ out hrest htail, hmid2]
          simp [List.count_append, List.count_replicate]
      | tail _ hmem =>
          obtain ⟨_, _, _, _, hmid2, _⟩ :=
            processClusterRoleBinding_chars ns sa acc mid e hmid
          have he1 : e.1 ≠ n := by
            intro hx
            have hn2 : e.1 ∈ List.map Prod.fst t := by
              rw [hx]
              exact List.mem_map_of_mem Prod.fst hmem
            exact hnd.1 hn2
          obtain ⟨subjs, ms, hsub, hms, hcount⟩ := ih _ out n obj hrest hmem hnd.2
          refine ⟨subjs, ms, hsub, hms, ?_⟩
          rw [hcount, hmid2]
          simp [List.count_append, List.count_replicate, he1]

/-- The ClusterRoleBinding loop never changes the RoleBinding list. -/
theorem crbFold_rolebindings (ns : String) (sa : Val) :
    ∀ (crbs : Entries) (acc out : Rbac),
      foldOpt (processClusterRoleBinding ns sa) crbs acc = some out →
      out.rolebindings = acc.rolebindings := by
  intro crbs
  induction crbs with
  | nil =>
      intro acc out h
      rw [foldOpt_nil] at h
      injection h with h
      subst h
      rfl
  | cons e t ih =>
      intro acc out h
      rw [foldOpt_cons] at h
      simp only [Option.bind_eq_some] at h
      obtain ⟨mid, hmid, hrest⟩ := h
      obtain ⟨_, _, _, _, _, hmid2⟩ := processClusterRoleBinding_chars ns sa acc mid e hmid
      rw [ih _ _ hrest, hmid2]

/-- The RoleBinding loop never changes the ClusterRoleBinding list. -/
theorem rbFold_clusterrolebindings (ns : String) (sa : Val) (snap : Snap) :
    ∀ (rbs : Entries) (acc out : Rbac),
      foldOpt (processRoleBinding ns sa snap) rbs acc = some out →
      out.clusterrolebindings = acc.clusterrolebindings := by
  intro rbs
  induction rbs with
  | nil =>
      intro acc out h
      rw [foldOpt_nil] at h
      injection h with h
      subst h
      rfl
  | cons e t ih =>
      intro acc out h
      rw [foldOpt_cons] at h
      simp only [Option.bind_eq_some] at h
      obtain ⟨mid, hmid, hrest⟩ := h
      obtain ⟨_, _, _, _, _, hmid2⟩ := processRoleBinding_chars ns sa snap acc mid e hmid
      rw [ih _ _ hrest, hmid2]

/-- Only snapshot-present Role names ever enter the roles list. -/
theorem roleBindingRoleRef_roles_sub (snap : Snap) (rb_obj : Val) (acc acc2 : Rbac)
    (h : roleBindingRoleRef snap rb_obj acc = some acc2)
    (hacc : ∀ v ∈ acc.roles, nameInSnap v (snapGet snap "roles") = true) :
    ∀ v ∈ acc2.roles, nameInSnap v (snapGet snap "roles") = true := by
  unfold roleBindingRoleRef at h
  simp only [Option.bind_eq_bind, Option.bind_eq_some] at h
  obtain ⟨role_ref, _, kd, _, h⟩ := h
  split at h
  · simp only [Option.bind_eq_bind, Option.bind_eq_some] at h
    obtain ⟨rn, _, h⟩ := h
    split at h
    · split at h
      · simp only [Option.pure_def, Option.some.injEq] at h
        subst h
        exact hacc
      · simp only [Option.pure_def, Option.some.injEq] at h
        subst h
        rename_i hguard _
        intro v hv
        rcases List.mem_append.mp hv with hv | hv
        · exact hacc v hv
        · rw [List.mem_singleton.mp hv]
          exact hguard.2
    · simp only [Option.pure_def, Option.some.injEq] at h
      subst h
      exact hacc
  · split at h
    · simp only [Option.bind_eq_bind, Option.bind_eq_some] at h
      obtain ⟨crn, _, h⟩ := h
      split at h <;>
        (simp only [Option.pure_def, Option.some.injEq] at h; subst h; exact hacc)
    · simp only [Option.pure_def, Option.some.injEq] at h
      subst h
      exact hacc

theorem processRoleBinding_roles_sub (ns : String) (sa : Val) (snap : Snap)
    (acc acc2 : Rbac) (rb : String × Val)
    (h : processRoleBinding ns sa snap acc rb = some acc2)
    (hacc : ∀ v ∈ acc.roles, nameInSnap v (snapGet snap "roles") = true) :
    ∀ v ∈ acc2.roles, nameInSnap v (snapGet snap "roles") = true := by
  unfold processRoleBinding at h
  simp only [Option.bind_eq_bind, Option.bind_eq_some] at h
  obtain ⟨subjects, _, subjList, _, hfold⟩ := h
  refine foldOpt_inv
    (P := fun b : Rbac => ∀ v ∈ b.roles, nameInSnap v (snapGet snap "roles") = true)
    ?_ hfold hacc
  intro b a b2 hb hstep
  unfold processRoleBindingSubject at hstep
  simp only [Option.bind_eq_bind, Option.bind_eq_some] at hstep
  obtain ⟨m, _, hstep⟩ := hstep
  split at hstep
  · exact roleBindingRoleRef_roles_sub snap rb.2 _ b2 hstep hb
  · simp only [Option.pure_def, Option.some.injEq] at hstep
    subst hstep
    exact hb

theorem processClusterRoleBinding_roles_eq (ns : String) (sa : Val)
    (acc acc2 : Rbac) (crb : String × Val)
    (h : processClusterRoleBinding ns sa acc crb = some acc2) :
    acc2.roles = acc.roles := by
  unfold processClusterRoleBinding at h
  simp only [Option.bind_eq_bind, Option.bind_eq_some] at h
  obtain ⟨subjects, _, subjList, _, hfold⟩ := h
  refine foldOpt_inv (P := fun b : Rbac => b.roles = acc.roles) ?_ hfold rfl
  intro b a b2 hb hstep
  simp only [Option.bind_eq_bind, Option.bind_eq_some] at hstep
  obtain ⟨m, _, hstep⟩ := hstep
  split at hstep
  · rw [(clusterRoleBindingRoleRef_fields crb.2 _ b2 hstep).1]
    exact hb
  · simp only [Option.pure_def, Option.some.injEq] at hstep
    subst hstep
    exact hb

/-- Reaching a property via one designated element of a fold: if processing
`a` from any state establishes `P` and every step preserves `P`, the fold
over any list containing `a` ends with `P`. -/
theorem foldOpt_reach {f : β → α → Option β} {P : β → Prop}
    (hpres : ∀ b a b2, P b → f b a = some b2 → P b2) (a : α)
    (hest : ∀ b b2, f b a = some b2 → P b2) :
    ∀ {l : List α} {b r : β}, a ∈ l → foldOpt f l b = some r → P r := by
  intro l
  induction l with
  | nil => intro b r hmem; cases hmem
  | cons x t ih =>
      intro b r hmem h
      rw [foldOpt_cons] at h
      simp only [Option.bind_eq_some] at h
      obtain ⟨mid, hmid, hrest⟩ := h
      cases hmem with
      | head => exact foldOpt_inv hpres hrest (hest b mid hmid)
      | tail _ hmem => exact ih hmem hrest

/-- A matching RoleBinding with a truthy ClusterRole `roleRef` name deposits
that name in the clusterroles list regardless of the snapshot. -/
theorem roleBindingRoleRef_adds_cr (snap : Snap) (rb_obj : Val) (acc acc2 : Rbac)
    (v : Val) (hk : roleRefKind rb_obj = some (Val.str "ClusterRole"))
    (hn : roleRefName rb_obj = some v) (ht : truthy v = true)
    (h : roleBindingRoleRef snap rb_obj acc = some acc2) :
    v ∈ acc2.clusterroles := by
  unfold roleBindingRoleRef at h
  unfold roleRefKind at hk
  unfold roleRefName at hn
  simp only [Option.bind_eq_bind, Option.bind_eq_some] at h
  obtain ⟨role_ref, href, kd, hkd, h⟩ := h
  rw [href] at hk hn
  simp only [Option.bind_eq_bind, Option.some_bind] at hk hn
  rw [hkd] at hk
  injection hk with hk
  subst hk
  split at h
  · rename_i hrole
    injection hrole with hrole
    exact absurd hrole (by decide)
  · split at h
    · simp only [Option.bind_eq_bind, Option.bind_eq_some] at h
      obtain ⟨crn, hcrn, h⟩ := h
      rw [hn] at hcrn
      injection hcrn with hcrn
      subst hcrn
      split at h
      · simp only [Option.pure_def, Option.some.injEq] at h
        subst h
        simp
      · rename_i hguard
        simp only [Option.pure_def, Option.some.injEq] at h
        subst h
        rw [not_and_or] at hguard
        rcases hguard with hguard | hguard
        · exact absurd ht hguard
        · simpa using hguard
    · rename_i hcr
      exact absurd rfl hcr

/-- A matching RoleBinding with a truthy, snapshot-present Role `roleRef`
name deposits that name in the roles list. -/
theorem roleBindingRoleRef_adds_role (snap : Snap) (rb_obj : Val) (acc acc2 : Rbac)
    (v : Val) (hk : roleRefKind rb_obj = some (Val.str "Role"))
    (hn : roleRefName rb_obj = some v) (ht : truthy v = true)
    (hsnap : nameInSnap v (snapGet snap "roles") = true)
    (h : roleBindingRoleRef snap rb_obj acc = some acc2) :
    v ∈ acc2.roles := by
  unfold roleBindingRoleRef at h
  unfold roleRefKind at hk
  unfold roleRefName at hn
  simp only [Option.bind_eq_bind, Option.bind_eq_some] at h
  obtain ⟨role_ref, href, kd, hkd, h⟩ := h
  rw [href] at hk hn
  simp only [Option.bind_eq_bind, Option.some_bind] at hk hn
  rw [hkd] at hk
  injection hk with hk
  subst hk
  split at h
  · simp only [Option.bind_eq_bind, Option.bind_eq_some] at h
    obtain ⟨rn, hrn, h⟩ := h
    rw [hn] at hrn
    injection hrn with hrn
    subst hrn
    split at h
    · split at h
      · rename_i hmem
        simp only [Option.pure_def, Option.some.injEq] at h
        subst h
        exact hmem
      · simp only [Option.pure_def, Option.some.injEq] at h
        subst h
        simp
    · rename_i hguard
      rw [not_and_or] at hguard
      rcases hguard with hguard | hguard
      · exact absurd ht hguard
      · exact absurd hsnap hguard
  · rename_i hrole
    exact absurd rfl hrole

theorem processRoleBindingSubject_cr_mono (ns : String) (sa : Val) (snap : Snap)
    (nm : String) (obj : Val) (b b2 : Rbac) (s : Val) (v : Val)
    (hstep : processRoleBindingSubject ns sa snap nm obj b s = some b2)
    (hv : v ∈ b.clusterroles) : v ∈ b2.clusterroles := by
  unfold processRoleBindingSubject at hstep
  simp only [Option.bind_eq_bind, Option.bind_eq_some] at hstep
  obtain ⟨m, _, hstep⟩ := hstep
  split at hstep
  · exact (roleBindingRoleRef_fields snap obj _ b2 hstep).2.2.2 v hv
  · simp only [Option.pure_def, Option.some.injEq] at hstep
    subst hstep
    exact hv

theorem processRoleBindingSubject_roles_mono (ns : String) (sa : Val) (snap : Snap)
    (nm : String) (obj : Val) (b b2 : Rbac) (s : Val) (v : Val)
    (hstep : processRoleBindingSubject ns sa snap nm obj b s = some b2)
    (hv : v ∈ b.roles) : v ∈ b2.roles := by
  unfold processRoleBindingSubject at hstep
  simp only [Option.bind_eq_bind, Option.bind_eq_some] at hstep
  obtain ⟨m, _, hstep⟩ := hstep
  split at hstep
  · exact (roleBindingRoleRef_fields snap obj _ b2 hstep).2.2.1 v hv
  · simp only [Option.pure_def, Option.some.injEq] at hstep
    subst hstep
    exact hv

theorem processRoleBinding_cr_mono (ns : String) (sa : Val) (snap : Snap)
    (acc acc2 : Rbac) (rb : String × Val) (v : Val)
    (h : processRoleBinding ns sa snap acc rb = some acc2)
    (hv : v ∈ acc.clusterroles) : v ∈ acc2.clusterroles := by
  unfold processRoleBinding at h
  simp only [Option.bind_eq_bind, Option.bind_eq_some] at h
  obtain ⟨subjects, _, subjList, _, hfold⟩ := h
  exact foldOpt_inv (P := fun b : Rbac => v ∈ b.clusterroles)
    (fun b a b2 hb hstep =>
      processRoleBindingSubject_cr_mono ns sa snap rb.1 rb.2 b b2 a v hstep hb)
    hfold hv

theorem processRoleBinding_roles_mono (ns : String) (sa : Val) (snap : Snap)
    (acc acc2 : Rbac) (rb : String × Val) (v : Val)
    (h : processRoleBinding ns sa snap acc rb = some acc2)
    (hv : v ∈ acc.roles) : v ∈ acc2.roles := by
  unfold processRoleBinding at h
  simp only [Option.bind_eq_bind, Option.bind_eq_some] at h
  obtain ⟨subjects, _, subjList, _, hfold⟩ := h
  exact foldOpt_inv (P := fun b : Rbac => v ∈ b.roles)
    (fun b a b2 hb hstep =>
      processRoleBindingSubject_roles_mono ns sa snap rb.1 rb.2 b b2 a v hstep hb)
    hfold hv

theorem processClusterRoleBinding_cr_mono (ns : String) (sa : Val)
    (acc acc2 : Rbac) (crb : String × Val) (v : Val)
    (h : processClusterRoleBinding ns sa acc crb = some acc2)
    (hv : v ∈ acc.clusterroles) : v ∈ acc2.clusterroles := by
  unfold processClusterRoleBinding at h
  simp only [Option.bind_eq_bind, Option.bind_eq_some] at h
  obtain ⟨subjects, _, subjList, _, hfold⟩ := h
  refine foldOpt_inv (P := fun b : Rbac => v ∈ b.clusterroles) ?_ hfold hv
  intro b a b2 hb hstep
  simp only [Option.bind_eq_bind, Option.bind_eq_some] at hstep
  obtain ⟨m, _, hstep⟩ := hstep
  split at hstep
  · exact (clusterRoleBindingRoleRef_fields crb.2 _ b2 hstep).2.2.2 v hb
  · simp only [Option.pure_def, Option.some.injEq] at hstep
    subst hstep
    exact hb

/-- Processing a RoleBinding with a matching subject and a ClusterRole
roleRef deposits the ClusterRole name. -/
theorem processRoleBinding_adds_cr (ns : String) (sa : Val) (snap : Snap)
    (acc acc2 : Rbac) (rb : String × Val) (v : Val)
    (h : processRoleBinding ns sa snap acc rb = some acc2)
    (hsub : ∃ subjs, bindingSubjects rb.2 = some subjs ∧
      ∃ s ∈ subjs, subjectMatchCond ns sa s)
    (hk : roleRefKind rb.2 = some (Val.str "ClusterRole"))
    (hn : roleRefName rb.2 = some v) (ht : truthy v = true) :
    v ∈ acc2.clusterroles := by
  obtain ⟨subjs, hsubjs, s, hs, hcond⟩ := hsub
  unfold processRoleBinding at h
  simp only [Option.bind_eq_bind, Option.bind_eq_some] at h
  obtain ⟨subjects, hget, subjList, hsl, hfold⟩ := h
  have hsubjs2 : subjList = subjs := by
    unfold bindingSubjects at hsubjs
    rw [hget] at hsubjs
    simp only [Option.bind_eq_bind, Option.some_bind] at hsubjs
    rw [hsl] at hsubjs
    injection hsubjs
  subst hsubjs2
  refine foldOpt_reach (P := fun b : Rbac => v ∈ b.clusterroles)
    (fun b a b2 hb hstep =>
      processRoleBindingSubject_cr_mono ns sa snap rb.1 rb.2 b b2 a v hstep hb)
    s ?_ hs hfold
  intro b b2 hstep
  unfold processRoleBindingSubject at hstep
  simp only [Option.bind_eq_bind, Option.bind_eq_some] at hstep
  obtain ⟨m, hm, hstep⟩ := hstep
  have hmt : m = true := (subjectMatches_iff ns sa s m hm).mpr hcond
  subst hmt
  rw [if_pos rfl] at hstep
  exact roleBindingRoleRef_adds_cr snap rb.2 _ b2 v hk hn ht hstep

/-- Processing a RoleBinding with a matching subject and a snapshot-present
Role roleRef deposits the Role name. -/
theorem processRoleBinding_adds_role (ns : String) (sa : Val) (snap : Snap)
    (acc acc2 : Rbac) (rb : String × Val) (v : Val)
    (h : processRoleBinding ns sa snap acc rb = some acc2)
    (hsub : ∃ subjs, bindingSubjects rb.2 = some subjs ∧
      ∃ s ∈ subjs, subjectMatchCond ns sa s)
    (hk : roleRefKind rb.2 = some (Val.str "Role"))
    (hn : roleRefName rb.2 = some v) (ht : truthy v = true)
    (hsnap : nameInSnap v (snapGet snap "roles") = true) :
    v ∈ acc2.roles := by
  obtain ⟨subjs, hsubjs, s, hs, hcond⟩ := hsub
  unfold processRoleBinding at h
  simp only [Option.bind_eq_bind, Option.bind_eq_some] at h
  obtain ⟨subjects, hget, subjList, hsl, hfold⟩ := h
  have hsubjs2 : subjList = subjs := by
    unfold bindingSubjects at hsubjs
    rw [hget] at hsubjs
    simp only [Option.bind_eq_bind, Option.some_bind] at hsubjs
    rw [hsl] at hsubjs
    injection hsubjs
  subst hsubjs2
  refine foldOpt_reach (P := fun b : Rbac => v ∈ b.roles)
    (fun b a b2 hb hstep =>
      processRoleBindingSubject_roles_mono ns sa snap rb.1 rb.2 b b2 a v hstep hb)
    s ?_ hs hfold
  intro b b2 hstep
  unfold processRoleBindingSubject at hstep
  simp only [Option.bind_eq_bind, Option.bind_eq_some] at hstep
  obtain ⟨m, hm, hstep⟩ := hstep
  have hmt : m = true := (subjectMatches_iff ns sa s m hm).mpr hcond
  subst hmt
  rw [if_pos rfl] at hstep
  exact roleBindingRoleRef_adds_role snap rb.2 _ b2 v hk hn ht hsnap hstep

/-- Claim C8: a RoleBinding/ClusterRoleBinding is in the result iff one of
its subjects has kind `ServiceAccount`, the requested name, and a namespace
equal to the target namespace (an omitted namespace field defaulting to the
target namespace); on a match, a `Role` roleRef is added only when present
in the snapshot — every returned role name is snapshot-present, and a
present one is added — while a `ClusterRole` roleRef is added by name with
no snapshot requirement. -/
theorem c8_rbac_resolution_characterization (ns : String) (sa : Val) (snap : Snap)
    (r : Rbac) (h : find_rbac_for_serviceaccount ns sa snap = some r) :
    (∀ v ∈ r.roles, nameInSnap v (snapGet snap "roles") = true) ∧
    (((snapGet snap "rolebindings").map Prod.fst).Nodup →
      ∀ n obj, (n, obj) ∈ snapGet snap "rolebindings" →
        (n ∈ r.rolebindings ↔ ∃ subjs, bindingSubjects obj = some subjs ∧
          ∃ s ∈ subjs, subjectMatchCond ns sa s)) ∧
    (((snapGet snap "clusterrolebindings").map Prod.fst).Nodup →
      ∀ n obj, (n, obj) ∈ snapGet snap "clusterrolebindings" →
        (n ∈ r.clusterrolebindings ↔ ∃ subjs, bindingSubjects obj = some subjs ∧
          ∃ s ∈ subjs, subjectMatchCond ns sa s)) ∧
    (∀ n obj v, (n, obj) ∈ snapGet snap "rolebindings" →
      (∃ subjs, bindingSubjects obj = some subjs ∧
        ∃ s ∈ subjs, subjectMatchCond ns sa s) →
      roleRefKind obj = some (Val.str "ClusterRole") → roleRefName obj = some v →
      truthy v = true → v ∈ r.clusterroles) ∧
    (∀ n obj v, (n, obj) ∈ snapGet snap "rolebindings" →
      (∃ subjs, bindingSubjects obj = some subjs ∧
        ∃ s ∈ subjs, subjectMatchCond ns sa s) →
      roleRefKind obj = some (Val.str "Role") → roleRefName obj = some v →
      truthy v = true → nameInSnap v (snapGet snap "roles") = true → v ∈ r.roles) := by
  unfold find_rbac_for_serviceaccount at h
  simp only [Option.bind_eq_bind, Option.bind_eq_some] at h
  obtain ⟨acc1, h1, h2⟩ := h
  have hacc1roles : ∀ v ∈ acc1.roles, nameInSnap v (snapGet snap "roles") = true :=
    foldOpt_inv
      (P := fun b : Rbac => ∀ v ∈ b.roles, nameInSnap v (snapGet snap "roles") = true)
      (fun b a b2 hb hstep => processRoleBinding_roles_sub ns sa snap b b2 a hstep hb)
      h1 (by intro v hv; cases hv)
  have hroles_eq : r.roles = acc1.roles :=
    foldOpt_inv (P := fun b : Rbac => b.roles = acc1.roles)
      (fun b a b2 hb hstep =>
        (processClusterRoleBinding_roles_eq ns sa b b2 a hstep).trans hb)
      h2 rfl
  refine ⟨?_, ?_, ?_, ?_, ?_⟩
  · rw [hroles_eq]
    exact hacc1roles
  · intro hnd n obj hmem
    obtain ⟨subjs, ms, hsub, hms, hcount⟩ :=
      rbFold_count_of_mem ns sa snap (snapGet snap "rolebindings")
        ⟨[], [], [], []⟩ acc1 n obj h1 hmem hnd
    have hrb_eq : r.rolebindings = acc1.rolebindings :=
      crbFold_rolebindings ns sa (snapGet snap "clusterrolebindings") acc1 r h2
    constructor
    · intro hn
      rw [hrb_eq] at hn
      have hpos : 0 < acc1.rolebindings.count n := List.count_pos_iff.mpr hn
      rw [hcount] at hpos
      simp only [List.count_nil, Nat.zero_add] at hpos
      refine ⟨subjs, hsub, ?_⟩
      exact (matchingSubject_iff_count ns sa subjs ms hms).mp hpos
    · rintro ⟨subjs2, hsub2, hex⟩
      rw [hsub] at hsub2
      injection hsub2 with hsub2
      subst hsub2
      have hpos : 0 < ms.count true :=
        (matchingSubject_iff_count ns sa subjs ms hms).mpr hex
      rw [hrb_eq]
      apply List.count_pos_iff.mp
      rw [hcount]
      simpa using hpos
  · intro hnd n obj hmem
    have hcrb0 : acc1.clusterrolebindings = ([] : List String) :=
      rbFold_clusterrolebindings ns sa snap (snapGet snap "rolebindings")
        ⟨[], [], [], []⟩ acc1 h1
    obtain ⟨subjs, ms, hsub, hms, hcount⟩ :=
      crbFold_count_of_mem ns sa (snapGet snap "clusterrolebindings")
        acc1 r n obj h2 hmem hnd
    rw [hcrb0] at hcount
    simp only [List.count_nil, Nat.zero_add] at hcount
    constructor
    · intro hn
      have hpos : 0 < r.clusterrolebindings.count n := List.count_pos_iff.mpr hn
      rw [hcount] at hpos
      exact ⟨subjs, hsub, (matchingSubject_iff_count ns sa subjs ms hms).mp hpos⟩
    · rintro ⟨subjs2, hsub2, hex⟩
      rw [hsub] at hsub2
      injection hsub2 with hsub2
      subst hsub2
      apply List.count_pos_iff.mp
      rw [hcount]
      exact (matchingSubject_iff_count ns sa subjs ms hms).mpr hex
  · intro n obj v hmem hsub hk hn ht
    have hacc1 : v ∈ acc1.clusterroles :=
      foldOpt_reach (P := fun b : Rbac => v ∈ b.clusterroles)
        (fun b a b2 hb hstep => processRoleBinding_cr_mono ns sa snap b b2 a v hstep hb)
        (n, obj)
        (fun b b2 hstep => processRoleBinding_adds_cr ns sa snap b b2 (n, obj) v
          hstep hsub hk hn ht)
        hmem h1
    exact foldOpt_inv (P := fun b : Rbac => v ∈ b.clusterroles)
      (fun b a b2 hb hstep => processClusterRoleBinding_cr_mono ns sa b b2 a v hstep hb)
      h2 hacc1
  · intro n obj v hmem hsub hk hn ht hsnap
    have hacc1 : v ∈ acc1.roles :=
      foldOpt_reach (P := fun b : Rbac => v ∈ b.roles)
        (fun b a b2 hb hstep => processRoleBinding_roles_mono ns sa snap b b2 a v hstep hb)
        (n, obj)
        (fun b b2 hstep => processRoleBinding_adds_role ns sa snap b b2 (n, obj) v
          hstep hsub hk hn ht hsnap)
        hmem h1
    rw [hroles_eq]
    exact hacc1

/-- The spec's RBAC scenario: ServiceAccount `svc-a`, RoleBinding `rb1` with
an omitted subject namespace, roleRef kind `Role` name `role1` present in the
snapshot. -/
def c8rbObj : Val :=
  Val.obj [
    ("subjects", Val.list [
      Val.obj [("kind", Val.str "ServiceAccount"), ("name", Val.str "svc-a")]]),
    ("roleRef", Val.obj [("kind", Val.str "Role"), ("name", Val.str "role1")])]

def c8snap : Snap :=
  [("roles", [("role1", Val.obj [("kind", Val.str "Role")])]),
   ("rolebindings", [("rb1", c8rbObj)])]

/-- Witness for C8 on the spec's scenario: resolution returns
`roles: [role1], rolebindings: [rb1]`, and the characterization's Role clause
applies at it. -/
theorem c8_characterization_witness :
    find_rbac_for_serviceaccount "myns" (Val.str "svc-a") c8snap =
      some ⟨[Val.str "role1"], ["rb1"], [], []⟩ ∧
    Val.str "role1" ∈ (⟨[Val.str "role1"], ["rb1"], [], []⟩ : Rbac).roles :=
  ⟨rfl,
    (c8_rbac_resolution_characterization "myns" (Val.str "svc-a") c8snap
        ⟨[Val.str "role1"], ["rb1"], [], []⟩ rfl).2.2.2.2
      "rb1" c8rbObj (Val.str "role1")
      (by simp [c8snap, snapGet, c8rbObj])
      ⟨[Val.obj [("kind", Val.str "ServiceAccount"), ("name", Val.str "svc-a")]], rfl,
        Val.obj [("kind", Val.str "ServiceAccount"), ("name", Val.str "svc-a")],
        by simp,
        ⟨[("kind", Val.str "ServiceAccount"), ("name", Val.str "svc-a")], rfl,
          rfl, rfl, rfl⟩⟩
      rfl rfl rfl rfl⟩

end ExportCleanGroup
